import Mathlib

/-!
Shallow embedding of the DIGIPIN hierarchical grid codec and its
hierarchy-navigation utilities, translated from the repository's
JavaScript sources:

* `lib/core/constants.js`  — symbol grid, coverage bounds
* `lib/core/encoder.js`    — `encode`
* `lib/core/decoder.js`    — `decode`
* `lib/utils/neighbors.js` — `getNeighbors`, `getChildren`, `getParent`
* `lib/utils/grid.js`      — `generateGrid`

Numbers are modelled by `ℚ`: every quantity the codec manipulates is
obtained from the rational root bounds by repeated exact halving and
quartering, so the real-number semantics of the algorithms is captured
exactly.  JavaScript's special numeric values (`NaN`, `±Infinity`) are
modelled explicitly by the `JSNum` type where a claim depends on them,
with their comparison semantics (`NaN` compares false) spelled out.
`Math.cos` is modelled by an arbitrary parameter `cosDeg : ℚ → ℚ`
(standing for `x ↦ Math.cos (x * π / 180)`); theorems that need it
assume only `cosDeg x ≤ 1`, which holds for the JavaScript function.
-/

namespace Digipin

/-- The 4×4 symbol matrix `DIGIPIN_GRID` from `lib/core/constants.js`. -/
def DIGIPIN_GRID : List (List Char) :=
  [['F', 'C', '9', '8'],
   ['J', '3', '2', '7'],
   ['K', '4', '5', '6'],
   ['L', 'M', 'P', 'T']]

/-- `DIGIPIN_CHARS = DIGIPIN_GRID.flat()` — the alphabet in row-major order. -/
def DIGIPIN_CHARS : List Char := DIGIPIN_GRID.flatten

/-- `CHAR_TO_POSITION` from `lib/core/constants.js`: the reverse lookup
built by scanning the grid row-major; a symbol at flat index `i` sits at
row `i / 4`, column `i % 4`.  Absent symbols map to `none`. -/
def charToPosition (c : Char) : Option (Nat × Nat) :=
  let i := DIGIPIN_CHARS.indexOf c
  if i < 16 then some (i / 4, i % 4) else none

/-- A working rectangle of the codec (`minLat`/`maxLat`/`minLon`/`maxLon`).
`decode` returns it as `bounds` with the JS field names
`north = maxLat`, `south = minLat`, `east = maxLon`, `west = minLon`. -/
@[ext]
structure Rect where
  minLat : ℚ
  maxLat : ℚ
  minLon : ℚ
  maxLon : ℚ
deriving DecidableEq

/-- `BOUNDS` from `lib/core/constants.js`:
`{minLat: 2.5, maxLat: 38.5, minLon: 63.5, maxLon: 99.5}`. -/
def rootRect : Rect := ⟨5/2, 77/2, 127/2, 199/2⟩

/-- `(lat, lon)` lies in the (closed) rectangle `r`. -/
def Rect.Inside (r : Rect) (lat lon : ℚ) : Prop :=
  r.minLat ≤ lat ∧ lat ≤ r.maxLat ∧ r.minLon ≤ lon ∧ lon ≤ r.maxLon

instance (r : Rect) (lat lon : ℚ) : Decidable (r.Inside lat lon) := by
  unfold Rect.Inside; infer_instance

/-- `Math.max(0, Math.min(x, 3))` — the row/column clamp in `encode`. -/
def clamp03 (x : ℤ) : ℤ := max 0 (min x 3)

/-- The row/column computation of one `encode` loop iteration
(`encoder.js` lines 40–48):
`row = clamp(3 - floor((lat - minLat)/latDiv))`,
`col = clamp(floor((lon - minLon)/lonDiv))`. -/
def encodeRowCol (lat lon : ℚ) (r : Rect) : ℤ × ℤ :=
  let latDiv := (r.maxLat - r.minLat) / 4
  let lonDiv := (r.maxLon - r.minLon) / 4
  (clamp03 (3 - ⌊(lat - r.minLat) / latDiv⌋), clamp03 ⌊(lon - r.minLon) / lonDiv⌋)

/-- The bounds update of one `encode` loop iteration (`encoder.js` lines
57–62).  `maxLat`/`minLat` both use the previous `minLat`; `maxLon` uses
the already-updated `minLon`. -/
def encodeNextRect (r : Rect) (row col : ℤ) : Rect :=
  let latDiv := (r.maxLat - r.minLat) / 4
  let lonDiv := (r.maxLon - r.minLon) / 4
  { minLat := r.minLat + latDiv * (3 - (row : ℚ))
    maxLat := r.minLat + latDiv * (4 - (row : ℚ))
    minLon := r.minLon + lonDiv * (col : ℚ)
    maxLon := r.minLon + lonDiv * (col : ℚ) + lonDiv }

/-- `DIGIPIN_GRID[row][col]` (total with a junk default; `encode` only
uses clamped indices `0..3`). -/
def gridChar (row col : ℤ) : Char :=
  (DIGIPIN_GRID.getD row.toNat []).getD col.toNat ' '

/-- The `for (level = 1; level <= precision; …)` loop of `encode`
(`encoder.js` lines 39–63): at each level the chosen grid symbol is
appended, a hyphen follows symbols 3 and 6 when `precision === 10`, and
the working rectangle is narrowed.  `fuel` counts remaining levels. -/
def encodeGo (lat lon : ℚ) (precision : ℕ) : ℕ → ℕ → Rect → Rect × List Char
  | _, 0, r => (r, [])
  | level, fuel + 1, r =>
    let rc := encodeRowCol lat lon r
    let c := gridChar rc.1 rc.2
    let next := encodeGo lat lon precision (level + 1) fuel (encodeNextRect r rc.1 rc.2)
    (next.1,
      c :: (if precision = 10 ∧ (level = 3 ∨ level = 6) then '-' :: next.2 else next.2))

/-- A JavaScript number: an exact rational, `NaN`, or a signed infinity. -/
inductive JSNum where
  | finite (q : ℚ)
  | nan
  | posInf
  | negInf
deriving DecidableEq

/-- A JavaScript value passed as a coordinate: a number or anything else
(`typeof lat !== 'number'`). -/
inductive JSVal where
  | jsNum (n : JSNum)
  | nonNum
deriving DecidableEq

/-- JS `x < q` for a number `x` and rational constant `q`:
`NaN` comparisons are false, `-Infinity < q` is true. -/
def JSNum.ltQ : JSNum → ℚ → Bool
  | .finite a, q => decide (a < q)
  | .nan, _ => false
  | .posInf, _ => false
  | .negInf, _ => true

/-- JS `x > q`: `NaN` comparisons are false, `Infinity > q` is true. -/
def JSNum.gtQ : JSNum → ℚ → Bool
  | .finite a, q => decide (q < a)
  | .nan, _ => false
  | .posInf, _ => true
  | .negInf, _ => false

/-- The distinct failure modes of `encode` (`encoder.js` lines 16–30):
the `typeof` guard, the precision guard, the two range guards, and the
untyped `TypeError` raised when a `NaN` row makes `DIGIPIN_GRID[NaN]`
evaluate to `undefined` and the column lookup indexes `undefined`.
(A `NaN` column alone does not raise — see `encodeGoNaNLon`.) -/
inductive EncodeError where
  | coordinatesError
  | precisionError
  | boundsError
  | typeError
deriving DecidableEq

/-- The characters JavaScript appends when the `undefined` produced by
`DIGIPIN_GRID[row][NaN]` is concatenated onto a string. -/
def undefinedChars : List Char := ['u', 'n', 'd', 'e', 'f', 'i', 'n', 'e', 'd']

/-- The `encode` loop for a finite in-range latitude and a `NaN`
longitude: every level has `col = NaN`, `DIGIPIN_GRID[row][NaN]` is
`undefined` (an absent key of a real array — no throw), and
`digiPin += undefined` appends the string `"undefined"`.  The latitude
narrowing stays finite and never influences what is appended, so only
the level count and the unchanged hyphen rule matter. -/
def encodeGoNaNLon (precision : ℕ) : ℕ → ℕ → List Char
  | _, 0 => []
  | level, fuel + 1 =>
    undefinedChars ++
      (if precision = 10 ∧ (level = 3 ∨ level = 6) then
        '-' :: encodeGoNaNLon precision (level + 1) fuel
      else encodeGoNaNLon precision (level + 1) fuel)

/-- `encode(lat, lon, precision)` from `lib/core/encoder.js`, over
JavaScript values.  Guard order follows the source: `typeof` check,
precision check, latitude range, longitude range, then the loop.  In the
loop a `NaN` latitude gives `row = NaN`, so `DIGIPIN_GRID[NaN]` is
`undefined` and indexing it throws an untyped `TypeError`.  A finite
latitude with a `NaN` longitude does not throw: `DIGIPIN_GRID[row][NaN]`
is `undefined`, string concatenation appends `"undefined"`, and the loop
completes, returning a garbage code.  Infinite coordinates never reach
the loop — the range guards reject them — so the four infinity arms
below are unreachable; they are given the guards' bounds error. -/
def encodeJS (lat lon : JSVal) (precision : ℤ) : Except EncodeError String :=
  match lat, lon with
  | .nonNum, _ => .error .coordinatesError
  | .jsNum _, .nonNum => .error .coordinatesError
  | .jsNum a, .jsNum b =>
    if precision < 1 ∨ 10 < precision then .error .precisionError
    else if a.ltQ rootRect.minLat ∨ a.gtQ rootRect.maxLat then .error .boundsError
    else if b.ltQ rootRect.minLon ∨ b.gtQ rootRect.maxLon then .error .boundsError
    else
      match a, b with
      | .finite la, .finite lo =>
        .ok ⟨(encodeGo la lo precision.toNat 1 precision.toNat rootRect).2⟩
      | .nan, _ => .error .typeError
      | .finite _, .nan => .ok ⟨encodeGoNaNLon precision.toNat 1 precision.toNat⟩
      | .posInf, _ => .error .boundsError
      | .negInf, _ => .error .boundsError
      | .finite _, .posInf => .error .boundsError
      | .finite _, .negInf => .error .boundsError

/-- `encode` on ordinary (finite) numbers. -/
def encode (lat lon : ℚ) (precision : ℤ) : Except EncodeError String :=
  encodeJS (.jsNum (.finite lat)) (.jsNum (.finite lon)) precision

/-- The failure modes of `decode` (`decoder.js` lines 20–34): a stripped
length of `0` or `> 10`, or a symbol outside the alphabet (reported with
its 1-based position). -/
inductive DecodeError where
  | invalidLength (n : ℕ)
  | invalidChar (c : Char) (pos : ℕ)
deriving DecidableEq

/-- Strip every hyphen and upper-case the remainder
(`decoder.js` line 18: replace all hyphens, then `toUpperCase`),
on the character list of the input string. -/
def sanitize (s : String) : List Char :=
  (s.data.filter (· ≠ '-')).map Char.toUpper

/-- The bounds update of one `decode` loop iteration (`decoder.js`
lines 38–50), for a symbol at grid position `(ri, ci)`. -/
def decodeNextRect (r : Rect) (ri ci : ℕ) : Rect :=
  let latDiv := (r.maxLat - r.minLat) / 4
  let lonDiv := (r.maxLon - r.minLon) / 4
  { minLat := r.maxLat - latDiv * ((ri : ℚ) + 1)
    maxLat := r.maxLat - latDiv * (ri : ℚ)
    minLon := r.minLon + lonDiv * (ci : ℚ)
    maxLon := r.minLon + lonDiv * ((ci : ℚ) + 1) }

/-- The `for (i = 0; i < pin.length; i++)` loop of `decode`
(`decoder.js` lines 29–51): each symbol is looked up in the reverse map
(failing with its 1-based position if absent) and the rectangle narrowed. -/
def decodeGo : List Char → ℕ → Rect → Except DecodeError Rect
  | [], _, r => .ok r
  | c :: cs, i, r =>
    match charToPosition c with
    | none => .error (.invalidChar c (i + 1))
    | some (ri, ci) => decodeGo cs (i + 1) (decodeNextRect r ri ci)

/-- The `accuracy` record returned by `decode`. -/
structure Accuracy where
  latDegrees : ℚ
  lonDegrees : ℚ
  approximateMeters : ℚ
deriving DecidableEq

/-- The record returned by `decode` (`decoder.js` lines 56–74).
`bounds` keeps the working-rectangle field names; the JS result names
them `north = maxLat`, `south = minLat`, `east = maxLon`, `west = minLon`. -/
structure DecodeResult where
  latitude : ℚ
  longitude : ℚ
  precision : ℕ
  bounds : Rect
  accuracy : Accuracy
deriving DecidableEq

/-- `decode(digiPin)` from `lib/core/decoder.js`, parametrized by the
cosine model `cosDeg` (for `Math.cos(centerLat * Math.PI / 180)`). -/
def decode (cosDeg : ℚ → ℚ) (s : String) : Except DecodeError DecodeResult :=
  let pin := sanitize s
  if pin.length = 0 ∨ 10 < pin.length then .error (.invalidLength pin.length)
  else
    match decodeGo pin 0 rootRect with
    | .error e => .error e
    | .ok r =>
      let centerLat := (r.minLat + r.maxLat) / 2
      let centerLon := (r.minLon + r.maxLon) / 2
      .ok
        { latitude := centerLat
          longitude := centerLon
          precision := pin.length
          bounds := r
          accuracy :=
            { latDegrees := r.maxLat - r.minLat
              lonDegrees := r.maxLon - r.minLon
              approximateMeters :=
                max ((r.maxLat - r.minLat) * 111000)
                    ((r.maxLon - r.minLon) * 111000 * cosDeg centerLat) } }

/-- The failure modes of `getParent` / `getChildren`
(`neighbors.js` lines 108–145). -/
inductive HierarchyError where
  | maxPrecision
  | minPrecision
deriving DecidableEq

/-- Hyphen stripping as done by `getChildren` / `getParent`
(`cleanPin = digipin.replace-hyphens`; note: no upper-casing there). -/
def stripHyphens (s : String) : List Char := s.data.filter (· ≠ '-')

/-- `getChildren(digipin)` from `lib/utils/neighbors.js` lines 108–130:
strip hyphens, fail when the stripped length is ≥ 10, otherwise append
each alphabet symbol in row-major order, re-inserting the display
hyphens when a child reaches length 10. -/
def getChildren (s : String) : Except HierarchyError (List String) :=
  let cleanPin := stripHyphens s
  if 10 ≤ cleanPin.length then .error .maxPrecision
  else
    .ok (DIGIPIN_CHARS.map fun c =>
      let childPin := cleanPin ++ [c]
      if childPin.length = 10 then
        ⟨childPin.take 3 ++ '-' :: ((childPin.drop 3).take 3 ++ '-' :: childPin.drop 6)⟩
      else ⟨childPin⟩)

/-- `getParent(digipin)` from `lib/utils/neighbors.js` lines 137–145:
strip hyphens, fail when the stripped length is ≤ 1, otherwise drop the
last symbol. -/
def getParent (s : String) : Except HierarchyError String :=
  let cleanPin := stripHyphens s
  if cleanPin.length ≤ 1 then .error .minPrecision
  else .ok ⟨cleanPin.dropLast⟩

/-- The eight compass offsets of `getNeighbors`
(`neighbors.js` lines 30–39), in source order N, NE, E, SE, S, SW, W, NW. -/
def neighborDirections (latStep lonStep : ℚ) : List (ℚ × ℚ) :=
  [(latStep, 0), (latStep, lonStep), (0, lonStep), (-latStep, lonStep),
   (-latStep, 0), (-latStep, -lonStep), (0, -lonStep), (latStep, -lonStep)]

/-- `getNeighbors(digipin)` from `lib/utils/neighbors.js` lines 15–58:
decode the code, offset its center by whole cell extents in the eight
compass directions, keep offsets inside `BOUNDS` whose re-encode
succeeds, and drop the rest silently. -/
def getNeighbors (cosDeg : ℚ → ℚ) (s : String) :
    Except DecodeError (List String) :=
  match decode cosDeg s with
  | .error e => .error e
  | .ok d =>
    let latStep := d.bounds.maxLat - d.bounds.minLat
    let lonStep := d.bounds.maxLon - d.bounds.minLon
    .ok ((neighborDirections latStep lonStep).filterMap fun dir =>
      let newLat := d.latitude + dir.1
      let newLon := d.longitude + dir.2
      if rootRect.minLat ≤ newLat ∧ newLat ≤ rootRect.maxLat ∧
         rootRect.minLon ≤ newLon ∧ newLon ≤ rootRect.maxLon then
        (encode newLat newLon d.precision).toOption
      else none)

/-- The bounding-box argument of `generateGrid`
(`{north, south, east, west}`). -/
structure GeoBox where
  north : ℚ
  south : ℚ
  east : ℚ
  west : ℚ
deriving DecidableEq

/-- The failure modes of `generateGrid` (`grid.js` lines 20–28). -/
inductive GridError where
  | invalidBox
  | outsideCoverage
deriving DecidableEq

/-- The sampling pitch of `generateGrid` (`grid.js` lines 34–37):
`cellSize = 36`, then `cellSize /= 4` once for each loop iteration
`i = 1 … precision - 1`. -/
def gridCellSize (precision : ℤ) : ℚ :=
  (List.range (precision - 1).toNat).foldl (fun c _ => c / 4) 36

/-- The sample points of one axis of `generateGrid`'s lattice loop
(`for (x = start; x <= stop; x += c)`): `start, start + c, …` up to
`stop`.  The guard mirrors the loop: it runs zero times when
`start > stop`, and `c` is always positive at the call sites. -/
def gridSamples (start stop c : ℚ) : List ℚ :=
  if 0 < c ∧ start ≤ stop then
    (List.range (⌊(stop - start) / c⌋.toNat + 1)).map (fun k : ℕ => start + (k : ℚ) * c)
  else []

/-- `Set.add` semantics of `digipins.add(...)`: keep insertion order,
skip values already present. -/
def insertUnique (acc : List String) (x : String) : List String :=
  if x ∈ acc then acc else acc ++ [x]

/-- `generateGrid(bounds, precision)` from `lib/utils/grid.js` lines
17–58: validate the box, snap the southwest corner down to a multiple of
`cellSize`, sample the lattice row by row, encode each in-coverage
sample, and deduplicate in insertion order. -/
def generateGrid (box : GeoBox) (precision : ℤ) : Except GridError (List String) :=
  if box.north ≤ box.south ∨ box.east ≤ box.west then .error .invalidBox
  else if box.south < rootRect.minLat ∨ rootRect.maxLat < box.north ∨
          box.west < rootRect.minLon ∨ rootRect.maxLon < box.east then
    .error .outsideCoverage
  else
    let c := gridCellSize precision
    let latStart := ⌊box.south / c⌋ * c
    let lonStart := ⌊box.west / c⌋ * c
    let candidates :=
      (gridSamples latStart box.north c).flatMap fun lat =>
        (gridSamples lonStart box.east c).filterMap fun lon =>
          if rootRect.minLat ≤ lat ∧ lat ≤ rootRect.maxLat ∧
             rootRect.minLon ≤ lon ∧ lon ≤ rootRect.maxLon then
            (encode lat lon precision).toOption
          else none
    .ok (candidates.foldl insertUnique [])

/-- Follows the spec's words for the C3 lattice-pitch claim, for
comparison with `generateGrid`: the identical algorithm except that the
pitch is `rootExtent / 4 ^ precision` (the cell size at `precision`)
instead of the source's `gridCellSize`. -/
def generateGridSpecPitch (box : GeoBox) (precision : ℤ) :
    Except GridError (List String) :=
  if box.north ≤ box.south ∨ box.east ≤ box.west then .error .invalidBox
  else if box.south < rootRect.minLat ∨ rootRect.maxLat < box.north ∨
          box.west < rootRect.minLon ∨ rootRect.maxLon < box.east then
    .error .outsideCoverage
  else
    let c := 36 / (4 : ℚ) ^ precision.toNat
    let latStart := ⌊box.south / c⌋ * c
    let lonStart := ⌊box.west / c⌋ * c
    let candidates :=
      (gridSamples latStart box.north c).flatMap fun lat =>
        (gridSamples lonStart box.east c).filterMap fun lon =>
          if rootRect.minLat ≤ lat ∧ lat ≤ rootRect.maxLat ∧
             rootRect.minLon ≤ lon ∧ lon ≤ rootRect.maxLon then
            (encode lat lon precision).toOption
          else none
    .ok (candidates.foldl insertUnique [])

/-! ### Basic facts about the alphabet and the clamp -/

lemma clamp03_nonneg (x : ℤ) : 0 ≤ clamp03 x := by unfold clamp03; omega

lemma clamp03_le_three (x : ℤ) : clamp03 x ≤ 3 := by unfold clamp03; omega

lemma dash_not_mem_chars : '-' ∉ DIGIPIN_CHARS := by decide

lemma charToPosition_isSome_iff (c : Char) :
    (charToPosition c).isSome ↔ c ∈ DIGIPIN_CHARS := by
  unfold charToPosition
  have hlen : DIGIPIN_CHARS.length = 16 := by decide
  constructor
  · intro h
    by_contra hmem
    have : DIGIPIN_CHARS.indexOf c = 16 := by
      rw [← hlen]
      exact List.indexOf_eq_length.mpr hmem
    simp [this] at h
  · intro hmem
    have : DIGIPIN_CHARS.indexOf c < 16 := by
      rw [← hlen]
      exact List.indexOf_lt_length.mpr hmem
    simp [this]

lemma charToPosition_lt (c : Char) (p : ℕ × ℕ) (h : charToPosition c = some p) :
    p.1 < 4 ∧ p.2 < 4 := by
  simp only [charToPosition] at h
  split at h
  · rename_i hlt
    obtain rfl : (DIGIPIN_CHARS.indexOf c / 4, DIGIPIN_CHARS.indexOf c % 4) = p :=
      Option.some_injective _ h
    exact ⟨by omega, by omega⟩
  · exact absurd h (by simp)

lemma mem_chars_of_charToPosition (c : Char) (p : ℕ × ℕ)
    (h : charToPosition c = some p) : c ∈ DIGIPIN_CHARS :=
  (charToPosition_isSome_iff c).mp (by rw [h]; rfl)

lemma charToPosition_gridChar_nat :
    ∀ rn < 4, ∀ cn < 4, charToPosition (gridChar (rn : ℕ) (cn : ℕ)) = some (rn, cn) := by
  decide

lemma charToPosition_gridChar (row col : ℤ)
    (h0r : 0 ≤ row) (h3r : row ≤ 3) (h0c : 0 ≤ col) (h3c : col ≤ 3) :
    charToPosition (gridChar row col) = some (row.toNat, col.toNat) := by
  have hr : row = ((row.toNat : ℕ) : ℤ) := (Int.toNat_of_nonneg h0r).symm
  have hc : col = ((col.toNat : ℕ) : ℤ) := (Int.toNat_of_nonneg h0c).symm
  rw [hr, hc]
  exact charToPosition_gridChar_nat row.toNat (by omega) col.toNat (by omega)

lemma gridChar_mem (row col : ℤ)
    (h0r : 0 ≤ row) (h3r : row ≤ 3) (h0c : 0 ≤ col) (h3c : col ≤ 3) :
    gridChar row col ∈ DIGIPIN_CHARS :=
  mem_chars_of_charToPosition _ _ (charToPosition_gridChar row col h0r h3r h0c h3c)

/-! ### The quadrant band selected by one encode step contains the point -/

lemma row_band (x m d : ℚ) (hd : 0 < d) (h0 : m ≤ x) (h4 : x ≤ m + 4 * d) :
    m + d * (3 - (clamp03 (3 - ⌊(x - m) / d⌋) : ℚ)) ≤ x ∧
      x ≤ m + d * (4 - (clamp03 (3 - ⌊(x - m) / d⌋) : ℚ)) := by
  set f := ⌊(x - m) / d⌋ with hf
  have hnn : 0 ≤ f := Int.le_floor.mpr (by
    push_cast
    exact div_nonneg (by linarith) hd.le)
  have hle4 : f ≤ 4 := by
    have h' : (x - m) / d ≤ 4 := by
      rw [div_le_iff hd]; linarith
    calc f ≤ ⌊(4 : ℚ)⌋ := Int.floor_le_floor h'
    _ = 4 := by norm_num
  have hfl : (f : ℚ) * d ≤ x - m := (le_div_iff hd).mp (Int.floor_le _)
  have hcl : clamp03 (3 - f) = 3 - min f 3 := by unfold clamp03; omega
  rw [hcl]
  rcases le_or_lt f 3 with hc | hc
  · have hmin : min f 3 = f := min_eq_left hc
    rw [hmin]
    have hfu : x - m < ((f : ℚ) + 1) * d := by
      rw [← div_lt_iff hd]
      exact Int.lt_floor_add_one _
    constructor
    · push_cast
      nlinarith
    · push_cast
      nlinarith
  · have hf4 : f = 4 := by omega
    have hmin : min f 3 = 3 := by omega
    rw [hmin]
    rw [hf4] at hfl
    push_cast at hfl
    constructor
    · push_cast
      nlinarith
    · push_cast
      nlinarith

lemma col_band (x m d : ℚ) (hd : 0 < d) (h0 : m ≤ x) (h4 : x ≤ m + 4 * d) :
    m + d * (clamp03 ⌊(x - m) / d⌋ : ℚ) ≤ x ∧
      x ≤ m + d * (clamp03 ⌊(x - m) / d⌋ : ℚ) + d := by
  set f := ⌊(x - m) / d⌋ with hf
  have hnn : 0 ≤ f := Int.le_floor.mpr (by
    push_cast
    exact div_nonneg (by linarith) hd.le)
  have hle4 : f ≤ 4 := by
    have h' : (x - m) / d ≤ 4 := by
      rw [div_le_iff hd]; linarith
    calc f ≤ ⌊(4 : ℚ)⌋ := Int.floor_le_floor h'
    _ = 4 := by norm_num
  have hfl : (f : ℚ) * d ≤ x - m := (le_div_iff hd).mp (Int.floor_le _)
  have hcl : clamp03 f = min f 3 := by unfold clamp03; omega
  rw [hcl]
  rcases le_or_lt f 3 with hc | hc
  · have hmin : min f 3 = f := min_eq_left hc
    rw [hmin]
    have hfu : x - m < ((f : ℚ) + 1) * d := by
      rw [← div_lt_iff hd]
      exact Int.lt_floor_add_one _
    constructor
    · nlinarith
    · nlinarith
  · have hf4 : f = 4 := by omega
    have hmin : min f 3 = 3 := by omega
    rw [hmin]
    rw [hf4] at hfl
    push_cast at hfl
    constructor
    · push_cast
      nlinarith
    · push_cast
      nlinarith

/-! ### One encode step: containment, extents, decode correspondence -/

lemma encodeRowCol_bounds (lat lon : ℚ) (r : Rect) :
    0 ≤ (encodeRowCol lat lon r).1 ∧ (encodeRowCol lat lon r).1 ≤ 3 ∧
      0 ≤ (encodeRowCol lat lon r).2 ∧ (encodeRowCol lat lon r).2 ≤ 3 := by
  simp only [encodeRowCol]
  exact ⟨clamp03_nonneg _, clamp03_le_three _, clamp03_nonneg _, clamp03_le_three _⟩

lemma encodeNextRect_extent_lat (r : Rect) (row col : ℤ) :
    (encodeNextRect r row col).maxLat - (encodeNextRect r row col).minLat =
      (r.maxLat - r.minLat) / 4 := by
  simp only [encodeNextRect]
  ring

lemma encodeNextRect_extent_lon (r : Rect) (row col : ℤ) :
    (encodeNextRect r row col).maxLon - (encodeNextRect r row col).minLon =
      (r.maxLon - r.minLon) / 4 := by
  simp only [encodeNextRect]
  ring

lemma encodeNextRect_inside (lat lon : ℚ) (r : Rect)
    (hlat : 0 < r.maxLat - r.minLat) (hlon : 0 < r.maxLon - r.minLon)
    (hin : r.Inside lat lon) :
    (encodeNextRect r (encodeRowCol lat lon r).1 (encodeRowCol lat lon r).2).Inside
      lat lon := by
  obtain ⟨h1, h2, h3, h4⟩ := hin
  have hdlat : 0 < (r.maxLat - r.minLat) / 4 := by linarith
  have hdlon : 0 < (r.maxLon - r.minLon) / 4 := by linarith
  have hrow := row_band lat r.minLat ((r.maxLat - r.minLat) / 4) hdlat h1
    (by nlinarith)
  have hcol := col_band lon r.minLon ((r.maxLon - r.minLon) / 4) hdlon h3
    (by nlinarith)
  simp only [encodeRowCol, encodeNextRect, Rect.Inside] at *
  exact ⟨hrow.1, hrow.2, hcol.1, hcol.2⟩

lemma decodeNextRect_eq (r : Rect) (row col : ℤ) (hr : 0 ≤ row) (hc : 0 ≤ col) :
    decodeNextRect r row.toNat col.toNat = encodeNextRect r row col := by
  have h1 : ((row.toNat : ℕ) : ℚ) = (row : ℚ) := by exact_mod_cast Int.toNat_of_nonneg hr
  have h2 : ((col.toNat : ℕ) : ℚ) = (col : ℚ) := by exact_mod_cast Int.toNat_of_nonneg hc
  simp only [decodeNextRect, encodeNextRect]
  ext <;> rw [h1] <;> rw [h2] <;> ring

/-! ### The encode loop: emitted symbols, final rectangle, decode inverse -/

lemma encodeGo_zero (lat lon : ℚ) (precision level : ℕ) (r : Rect) :
    encodeGo lat lon precision level 0 r = (r, []) := rfl

lemma encodeGo_succ (lat lon : ℚ) (precision level fuel : ℕ) (r : Rect) :
    encodeGo lat lon precision level (fuel + 1) r =
      ((encodeGo lat lon precision (level + 1) fuel
          (encodeNextRect r (encodeRowCol lat lon r).1 (encodeRowCol lat lon r).2)).1,
        gridChar (encodeRowCol lat lon r).1 (encodeRowCol lat lon r).2 ::
          (if precision = 10 ∧ (level = 3 ∨ level = 6) then
            '-' :: (encodeGo lat lon precision (level + 1) fuel
              (encodeNextRect r (encodeRowCol lat lon r).1 (encodeRowCol lat lon r).2)).2
          else (encodeGo lat lon precision (level + 1) fuel
            (encodeNextRect r (encodeRowCol lat lon r).1
              (encodeRowCol lat lon r).2)).2)) := rfl

lemma encodeGo_spec (lat lon : ℚ) (precision : ℕ) :
    ∀ (fuel level : ℕ) (r : Rect),
      r.Inside lat lon → 0 < r.maxLat - r.minLat → 0 < r.maxLon - r.minLon →
      ((encodeGo lat lon precision level fuel r).2.filter (· ≠ '-')).length = fuel ∧
      (∀ c ∈ (encodeGo lat lon precision level fuel r).2, c = '-' ∨ c ∈ DIGIPIN_CHARS) ∧
      (∀ i, decodeGo ((encodeGo lat lon precision level fuel r).2.filter (· ≠ '-')) i r =
        .ok (encodeGo lat lon precision level fuel r).1) ∧
      (encodeGo lat lon precision level fuel r).1.Inside lat lon ∧
      (encodeGo lat lon precision level fuel r).1.maxLat -
        (encodeGo lat lon precision level fuel r).1.minLat =
          (r.maxLat - r.minLat) / 4 ^ fuel ∧
      (encodeGo lat lon precision level fuel r).1.maxLon -
        (encodeGo lat lon precision level fuel r).1.minLon =
          (r.maxLon - r.minLon) / 4 ^ fuel := by
  intro fuel
  induction fuel with
  | zero =>
    intro level r hin hlat hlon
    rw [encodeGo_zero]
    refine ⟨rfl, by simp, fun i => rfl, hin, by norm_num, by norm_num⟩
  | succ n ih =>
    intro level r hin hlat hlon
    obtain ⟨hr0, hr3, hc0, hc3⟩ := encodeRowCol_bounds lat lon r
    set rc := encodeRowCol lat lon r with hrc
    set ch := gridChar rc.1 rc.2 with hch
    set r' := encodeNextRect r rc.1 rc.2 with hr'
    have hmem : ch ∈ DIGIPIN_CHARS := gridChar_mem _ _ hr0 hr3 hc0 hc3
    have hdash : ch ≠ '-' := fun h => dash_not_mem_chars (h ▸ hmem)
    have hin' : r'.Inside lat lon := encodeNextRect_inside lat lon r hlat hlon hin
    have hlat' : 0 < r'.maxLat - r'.minLat := by
      rw [hr', encodeNextRect_extent_lat]; linarith
    have hlon' : 0 < r'.maxLon - r'.minLon := by
      rw [hr', encodeNextRect_extent_lon]; linarith
    obtain ⟨ihlen, ihmem, ihdec, ihin, ihlatx, ihlonx⟩ :=
      ih (level + 1) r' hin' hlat' hlon'
    set out := encodeGo lat lon precision (level + 1) n r' with hout
    have htail : ∀ tail : List Char, tail = out.2 ∨ tail = '-' :: out.2 →
        (ch :: tail).filter (· ≠ '-') = ch :: out.2.filter (· ≠ '-') := by
      rintro tail (rfl | rfl) <;> simp [List.filter_cons, hdash]
    have hshape :
        encodeGo lat lon precision level (n + 1) r =
          (out.1, ch ::
            (if precision = 10 ∧ (level = 3 ∨ level = 6) then '-' :: out.2 else out.2)) := by
      rw [encodeGo_succ]
    rw [hshape]
    have hfilter :
        (ch :: (if precision = 10 ∧ (level = 3 ∨ level = 6) then '-' :: out.2
          else out.2)).filter (· ≠ '-') = ch :: out.2.filter (· ≠ '-') := by
      apply htail
      split
      · exact Or.inr rfl
      · exact Or.inl rfl
    refine ⟨?_, ?_, ?_, ihin, ?_, ?_⟩
    · simp only [hfilter, List.length_cons, ihlen]
    · intro c hcmem
      simp only [List.mem_cons] at hcmem
      rcases hcmem with rfl | hcmem
      · exact Or.inr hmem
      · revert hcmem
        split
        · intro hcmem
          rcases List.mem_cons.mp hcmem with rfl | hcmem
          · exact Or.inl rfl
          · exact ihmem _ hcmem
        · intro hcmem
          exact ihmem _ hcmem
    · intro i
      simp only [hfilter]
      have hpos : decodeGo (ch :: out.2.filter (· ≠ '-')) i r =
          decodeGo (out.2.filter (· ≠ '-')) (i + 1) (decodeNextRect r rc.1.toNat rc.2.toNat) := by
        simp only [decodeGo, charToPosition_gridChar rc.1 rc.2 hr0 hr3 hc0 hc3]
      rw [hpos, decodeNextRect_eq r rc.1 rc.2 hr0 hc0, ← hr', ihdec (i + 1)]
    · rw [ihlatx, hr', encodeNextRect_extent_lat, div_div, pow_succ]
      ring_nf
    · rw [ihlonx, hr', encodeNextRect_extent_lon, div_div, pow_succ]
      ring_nf

/-! ### Evaluating encode and decode on valid inputs -/

lemma toUpper_fix : ∀ c ∈ DIGIPIN_CHARS, c.toUpper = c := by decide

lemma sanitize_encode_output (l : List Char)
    (h : ∀ c ∈ l, c = '-' ∨ c ∈ DIGIPIN_CHARS) :
    sanitize ⟨l⟩ = l.filter (· ≠ '-') := by
  unfold sanitize
  have hfix : ∀ c ∈ l.filter (· ≠ '-'), c.toUpper = c := by
    intro c hc
    have hmem := List.mem_of_mem_filter hc
    have hne : c ≠ '-' := by simpa using List.of_mem_filter hc
    rcases h c hmem with rfl | hcc
    · exact absurd rfl hne
    · exact toUpper_fix c hcc
  show ((⟨l⟩ : String).data.filter (· ≠ '-')).map Char.toUpper = l.filter (· ≠ '-')
  have hdata : (⟨l⟩ : String).data = l := rfl
  rw [hdata, List.map_congr_left hfix]
  exact List.map_id _

lemma encode_eq_ok (lat lon : ℚ) (p : ℤ) (hp1 : 1 ≤ p) (hp2 : p ≤ 10)
    (h1 : rootRect.minLat ≤ lat) (h2 : lat ≤ rootRect.maxLat)
    (h3 : rootRect.minLon ≤ lon) (h4 : lon ≤ rootRect.maxLon) :
    encode lat lon p = .ok ⟨(encodeGo lat lon p.toNat 1 p.toNat rootRect).2⟩ := by
  simp only [encode, encodeJS, JSNum.ltQ, JSNum.gtQ]
  rw [if_neg (by omega)]
  rw [if_neg (by simp only [decide_eq_true_eq, not_or, not_lt]; exact ⟨h1, h2⟩)]
  rw [if_neg (by simp only [decide_eq_true_eq, not_or, not_lt]; exact ⟨h3, h4⟩)]

lemma rootRect_extent_lat : rootRect.maxLat - rootRect.minLat = 36 := by
  norm_num [rootRect]

lemma rootRect_extent_lon : rootRect.maxLon - rootRect.minLon = 36 := by
  norm_num [rootRect]

lemma decode_encode_output (cosDeg : ℚ → ℚ) (lat lon : ℚ) (p : ℤ)
    (hp1 : 1 ≤ p) (hp2 : p ≤ 10)
    (h1 : rootRect.minLat ≤ lat) (h2 : lat ≤ rootRect.maxLat)
    (h3 : rootRect.minLon ≤ lon) (h4 : lon ≤ rootRect.maxLon) :
    ∃ res : DecodeResult,
      decode cosDeg ⟨(encodeGo lat lon p.toNat 1 p.toNat rootRect).2⟩ = .ok res ∧
      res.bounds = (encodeGo lat lon p.toNat 1 p.toNat rootRect).1 ∧
      res.precision = p.toNat ∧
      res.latitude = (res.bounds.minLat + res.bounds.maxLat) / 2 ∧
      res.longitude = (res.bounds.minLon + res.bounds.maxLon) / 2 ∧
      res.accuracy.approximateMeters =
        max ((res.bounds.maxLat - res.bounds.minLat) * 111000)
            ((res.bounds.maxLon - res.bounds.minLon) * 111000 * cosDeg res.latitude) := by
  obtain ⟨hlen, hmemall, hdec, hin, hlatx, hlonx⟩ :=
    encodeGo_spec lat lon p.toNat p.toNat 1 rootRect
      ⟨h1, h2, h3, h4⟩ (by norm_num [rootRect]) (by norm_num [rootRect])
  have hsan := sanitize_encode_output _ hmemall
  simp only [decode, hsan, hlen]
  rw [if_neg (by omega), hdec 0]
  exact ⟨_, rfl, rfl, rfl, rfl, rfl, rfl⟩

/-- C1: for every latitude/longitude pair strictly inside `rootRect` and
every precision in `[1, 10]`, the bounds returned by
`decode (encode lat lon precision)` contain the point `(lat, lon)`
(strictly-inside points are in particular away from quadrant division
boundaries; with exact arithmetic the containment needs no further
exclusion). -/
theorem roundtrip_containment (cosDeg : ℚ → ℚ) (lat lon : ℚ) (p : ℤ)
    (h1 : rootRect.minLat < lat) (h2 : lat < rootRect.maxLat)
    (h3 : rootRect.minLon < lon) (h4 : lon < rootRect.maxLon)
    (hp1 : 1 ≤ p) (hp2 : p ≤ 10) :
    ∃ (code : String) (res : DecodeResult),
      encode lat lon p = .ok code ∧ decode cosDeg code = .ok res ∧
      res.bounds.Inside lat lon := by
  obtain ⟨res, hres, hbounds, -⟩ :=
    decode_encode_output cosDeg lat lon p hp1 hp2 h1.le h2.le h3.le h4.le
  obtain ⟨-, -, -, hin, -, -⟩ :=
    encodeGo_spec lat lon p.toNat p.toNat 1 rootRect
      ⟨h1.le, h2.le, h3.le, h4.le⟩ (by norm_num [rootRect]) (by norm_num [rootRect])
  exact ⟨_, res, encode_eq_ok lat lon p hp1 hp2 h1.le h2.le h3.le h4.le, hres,
    hbounds ▸ hin⟩

/-- Witness for C1 at `(lat, lon) = (3, 64)`, precision `5`. -/
theorem roundtrip_containment_witness :
    ∃ (code : String) (res : DecodeResult),
      encode 3 64 5 = .ok code ∧ decode (fun _ => 1) code = .ok res ∧
      res.bounds.Inside 3 64 :=
  roundtrip_containment (fun _ => 1) 3 64 5 (by norm_num [rootRect])
    (by norm_num [rootRect]) (by norm_num [rootRect]) (by norm_num [rootRect])
    (by norm_num) (by norm_num)

/-! ### Hyphen placement in the encoder output -/

lemma encodeGo_no_hyphen (lat lon : ℚ) (precision : ℕ) (hp : precision ≠ 10) :
    ∀ (fuel level : ℕ) (r : Rect), '-' ∉ (encodeGo lat lon precision level fuel r).2 := by
  intro fuel
  induction fuel with
  | zero =>
    intro level r
    rw [encodeGo_zero]
    simp
  | succ n ih =>
    intro level r
    obtain ⟨hr0, hr3, hc0, hc3⟩ := encodeRowCol_bounds lat lon r
    have hmem := gridChar_mem _ _ hr0 hr3 hc0 hc3
    intro hcontra
    rw [encodeGo_succ, if_neg (fun hc => hp hc.1)] at hcontra
    rcases List.mem_cons.mp hcontra with heq | hcontra
    · exact dash_not_mem_chars (heq ▸ hmem)
    · exact ih (level + 1) _ hcontra

/-- Proof helper (not from the source): re-insert the encoder's hyphens
into a stripped symbol list, one symbol per level starting at `level`. -/
def hyphenate (precision : ℕ) : ℕ → List Char → List Char
  | _, [] => []
  | level, c :: cs =>
    c :: (if precision = 10 ∧ (level = 3 ∨ level = 6) then
      '-' :: hyphenate precision (level + 1) cs
    else hyphenate precision (level + 1) cs)

lemma encodeGo_eq_hyphenate (lat lon : ℚ) (precision : ℕ) :
    ∀ (fuel level : ℕ) (r : Rect),
      (encodeGo lat lon precision level fuel r).2 =
        hyphenate precision level
          ((encodeGo lat lon precision level fuel r).2.filter (· ≠ '-')) := by
  intro fuel
  induction fuel with
  | zero =>
    intro level r
    rw [encodeGo_zero]
    rfl
  | succ n ih =>
    intro level r
    obtain ⟨hr0, hr3, hc0, hc3⟩ := encodeRowCol_bounds lat lon r
    have hmem := gridChar_mem _ _ hr0 hr3 hc0 hc3
    have hdash : gridChar (encodeRowCol lat lon r).1 (encodeRowCol lat lon r).2 ≠ '-' :=
      fun h => dash_not_mem_chars (h ▸ hmem)
    rw [encodeGo_succ]
    have hfilter :
        ((gridChar (encodeRowCol lat lon r).1 (encodeRowCol lat lon r).2 ::
          (if precision = 10 ∧ (level = 3 ∨ level = 6) then
            '-' :: (encodeGo lat lon precision (level + 1) n
              (encodeNextRect r (encodeRowCol lat lon r).1 (encodeRowCol lat lon r).2)).2
          else (encodeGo lat lon precision (level + 1) n
            (encodeNextRect r (encodeRowCol lat lon r).1
              (encodeRowCol lat lon r).2)).2)).filter (· ≠ '-')) =
          gridChar (encodeRowCol lat lon r).1 (encodeRowCol lat lon r).2 ::
            ((encodeGo lat lon precision (level + 1) n
              (encodeNextRect r (encodeRowCol lat lon r).1
                (encodeRowCol lat lon r).2)).2.filter (· ≠ '-')) := by
      split <;> simp [List.filter_cons, hdash]
    rw [hfilter, hyphenate, ← ih (level + 1)]

lemma hyphenate_ten (e : List Char) (he : e.length = 10) :
    hyphenate 10 1 e = e.take 3 ++ '-' :: ((e.drop 3).take 3 ++ '-' :: e.drop 6) := by
  obtain _ | ⟨a1, e⟩ := e; · simp at he
  obtain _ | ⟨a2, e⟩ := e; · simp at he
  obtain _ | ⟨a3, e⟩ := e; · simp at he
  obtain _ | ⟨a4, e⟩ := e; · simp at he
  obtain _ | ⟨a5, e⟩ := e; · simp at he
  obtain _ | ⟨a6, e⟩ := e; · simp at he
  obtain _ | ⟨a7, e⟩ := e; · simp at he
  obtain _ | ⟨a8, e⟩ := e; · simp at he
  obtain _ | ⟨a9, e⟩ := e; · simp at he
  obtain _ | ⟨a10, e⟩ := e; · simp at he
  obtain rfl : e = [] := by
    have h0 : e.length = 0 := by simp only [List.length_cons] at he; omega
    exact List.length_eq_zero.mp h0
  rfl

/-- C4: `encode` inserts the group separator after the 3rd and 6th
emitted symbol exactly when the final code length is 10 (precision 10,
giving the `AAA-BBB-CCCC` grouping); for every precision in `[1, 9]`
the returned code contains no separator. -/
theorem separator_grouping (lat lon : ℚ) (p : ℤ)
    (h1 : rootRect.minLat ≤ lat) (h2 : lat ≤ rootRect.maxLat)
    (h3 : rootRect.minLon ≤ lon) (h4 : lon ≤ rootRect.maxLon)
    (hp1 : 1 ≤ p) (hp2 : p ≤ 10) :
    ∃ code : String, encode lat lon p = .ok code ∧
      (p ≤ 9 → '-' ∉ code.data) ∧
      (p = 10 → ∃ e : List Char, e.length = 10 ∧ (∀ c ∈ e, c ∈ DIGIPIN_CHARS) ∧
        code.data = e.take 3 ++ '-' :: ((e.drop 3).take 3 ++ '-' :: e.drop 6)) := by
  refine ⟨_, encode_eq_ok lat lon p hp1 hp2 h1 h2 h3 h4, ?_, ?_⟩
  · intro h9
    exact encodeGo_no_hyphen lat lon p.toNat (by omega) p.toNat 1 rootRect
  · intro h10
    subst h10
    obtain ⟨hlen, hmemall, -, -, -, -⟩ :=
      encodeGo_spec lat lon (10 : ℤ).toNat ((10 : ℤ)).toNat 1 rootRect
        ⟨h1, h2, h3, h4⟩ (by norm_num [rootRect]) (by norm_num [rootRect])
    refine ⟨((encodeGo lat lon (10 : ℤ).toNat 1 (10 : ℤ).toNat rootRect).2.filter
      (· ≠ '-')), hlen, ?_, ?_⟩
    · intro c hc
      have hmem := List.mem_of_mem_filter hc
      have hne : c ≠ '-' := by simpa using List.of_mem_filter hc
      rcases hmemall c hmem with rfl | hcc
      · exact absurd rfl hne
      · exact hcc
    · have hten : ((10 : ℤ)).toNat = 10 := rfl
      rw [show ((⟨(encodeGo lat lon (10 : ℤ).toNat 1 (10 : ℤ).toNat rootRect).2⟩ :
        String)).data = (encodeGo lat lon (10 : ℤ).toNat 1 (10 : ℤ).toNat rootRect).2
        from rfl]
      rw [hten] at hlen ⊢
      exact (encodeGo_eq_hyphenate lat lon 10 10 1 rootRect).trans
        (hyphenate_ten _ hlen)

/-- Witness for C4 at `(3, 64)`: precision 9 yields no separator,
precision 10 yields the 3-3-4 grouping. -/
theorem separator_grouping_witness :
    (∃ code : String, encode 3 64 9 = .ok code ∧
      ((9 : ℤ) ≤ 9 → '-' ∉ code.data) ∧
      ((9 : ℤ) = 10 → ∃ e : List Char, e.length = 10 ∧
        (∀ c ∈ e, c ∈ DIGIPIN_CHARS) ∧
        code.data = e.take 3 ++ '-' :: ((e.drop 3).take 3 ++ '-' :: e.drop 6))) ∧
    (∃ code : String, encode 3 64 10 = .ok code ∧
      ((10 : ℤ) ≤ 9 → '-' ∉ code.data) ∧
      ((10 : ℤ) = 10 → ∃ e : List Char, e.length = 10 ∧
        (∀ c ∈ e, c ∈ DIGIPIN_CHARS) ∧
        code.data = e.take 3 ++ '-' :: ((e.drop 3).take 3 ++ '-' :: e.drop 6))) :=
  ⟨separator_grouping 3 64 9 (by norm_num [rootRect]) (by norm_num [rootRect])
      (by norm_num [rootRect]) (by norm_num [rootRect]) (by norm_num) (by norm_num),
    separator_grouping 3 64 10 (by norm_num [rootRect]) (by norm_num [rootRect])
      (by norm_num [rootRect]) (by norm_num [rootRect]) (by norm_num) (by norm_num)⟩

/-! ### Children and parent -/

lemma filter_dash_of_no_dash (l : List Char) (h : '-' ∉ l) :
    l.filter (· ≠ '-') = l :=
  List.filter_eq_self.mpr fun c hc => by
    simp only [ne_eq, decide_not, Bool.not_eq_true']
    exact decide_eq_false fun hcc => h (hcc ▸ hc)

lemma stripHyphens_child (childPin : List Char) (hnd : '-' ∉ childPin) :
    stripHyphens (if childPin.length = 10 then
      ⟨childPin.take 3 ++ '-' :: ((childPin.drop 3).take 3 ++ '-' :: childPin.drop 6)⟩
    else ⟨childPin⟩) = childPin := by
  unfold stripHyphens
  split
  · show (childPin.take 3 ++ '-' ::
      ((childPin.drop 3).take 3 ++ '-' :: childPin.drop 6)).filter (· ≠ '-') = childPin
    have h1 : '-' ∉ childPin.take 3 := fun hmem => hnd (List.mem_of_mem_take hmem)
    have h2 : '-' ∉ (childPin.drop 3).take 3 :=
      fun hmem => hnd (List.mem_of_mem_drop (List.mem_of_mem_take hmem))
    have h3 : '-' ∉ childPin.drop 6 := fun hmem => hnd (List.mem_of_mem_drop hmem)
    rw [List.filter_append, List.filter_cons_of_neg (by simp), List.filter_append,
      List.filter_cons_of_neg (by simp), filter_dash_of_no_dash _ h1,
      filter_dash_of_no_dash _ h2, filter_dash_of_no_dash _ h3]
    have hdrop : (childPin.drop 3).take 3 ++ childPin.drop 6 = childPin.drop 3 := by
      have h6 : childPin.drop 6 = (childPin.drop 3).drop 3 := by
        rw [List.drop_drop]
      rw [h6]
      exact List.take_append_drop 3 _
    rw [hdrop, List.take_append_drop]
  · exact filter_dash_of_no_dash _ hnd

lemma string_eta (s : String) : (⟨s.data⟩ : String) = s := rfl

/-- C2: for every sanitized code of length 1–9, `getChildren` returns
exactly 16 codes, obtained (up to the display hyphens re-inserted into a
length-10 child) by appending each alphabet symbol in row-major order,
and `getParent` maps every child back to the input. -/
theorem children_parent_inverse (s : String) (hnohyp : '-' ∉ s.data)
    (h1 : 1 ≤ s.data.length) (h9 : s.data.length ≤ 9) :
    ∃ l : List String, getChildren s = .ok l ∧ l.length = 16 ∧
      l.map (fun k => stripHyphens k) =
        DIGIPIN_CHARS.map (fun c => s.data ++ [c]) ∧
      ∀ k ∈ l, getParent k = .ok s := by
  have hstrip : stripHyphens s = s.data := filter_dash_of_no_dash _ hnohyp
  have hchild : ∀ c ∈ DIGIPIN_CHARS, '-' ∉ s.data ++ [c] := by
    intro c hc hmem
    rcases List.mem_append.mp hmem with hmem | hmem
    · exact hnohyp hmem
    · simp only [List.mem_singleton] at hmem
      exact dash_not_mem_chars (hmem ▸ hc)
  have hok : getChildren s = .ok (DIGIPIN_CHARS.map fun c =>
      if (s.data ++ [c]).length = 10 then
        ⟨(s.data ++ [c]).take 3 ++ '-' ::
          (((s.data ++ [c]).drop 3).take 3 ++ '-' :: (s.data ++ [c]).drop 6)⟩
      else ⟨s.data ++ [c]⟩) := by
    unfold getChildren
    rw [hstrip, if_neg (by omega)]
  refine ⟨_, hok, by rw [List.length_map]; rfl, ?_, ?_⟩
  · rw [List.map_map]
    refine List.map_congr_left ?_
    intro c hc
    exact stripHyphens_child (s.data ++ [c]) (hchild c hc)
  · intro k hk
    obtain ⟨c, hc, rfl⟩ := List.mem_map.mp hk
    unfold getParent
    rw [stripHyphens_child (s.data ++ [c]) (hchild c hc),
      if_neg (by simp only [List.length_append, List.length_singleton]; omega)]
    rw [List.dropLast_concat]

/-- Witness for C2 at the concrete code `"39J"`. -/
theorem children_parent_inverse_witness :
    ∃ l : List String, getChildren "39J" = .ok l ∧ l.length = 16 ∧
      l.map (fun k => stripHyphens k) =
        DIGIPIN_CHARS.map (fun c => "39J".data ++ [c]) ∧
      ∀ k ∈ l, getParent k = .ok "39J" :=
  children_parent_inverse "39J" (by decide) (by decide) (by decide)

/-! ### Error conditions of parent and children (C10) -/

/-- C10: `getParent` and `getChildren` never validate symbols against
the alphabet: `getParent` fails exactly when the hyphen-stripped code has
length ≤ 1 (otherwise returning the stripped prefix, whatever the
symbols), and `getChildren` fails exactly when the stripped length
is ≥ 10. -/
theorem parent_children_error_conditions (s : String) :
    ((∃ r, getParent s = .ok r) ↔ 2 ≤ (stripHyphens s).length) ∧
    (∀ r, getParent s = .ok r → r = ⟨(stripHyphens s).dropLast⟩) ∧
    ((∃ l, getChildren s = .ok l) ↔ (stripHyphens s).length ≤ 9) := by
  refine ⟨?_, ?_, ?_⟩
  · simp only [getParent]
    split
    · rename_i hle
      constructor
      · rintro ⟨r, hr⟩
        exact absurd hr (by simp)
      · intro h
        omega
    · rename_i hgt
      exact ⟨fun _ => by omega, fun _ => ⟨_, rfl⟩⟩
  · intro r hr
    simp only [getParent] at hr
    split at hr
    · exact absurd hr (by simp)
    · exact (Except.ok.injEq _ _ ▸ hr).symm ▸ rfl
  · simp only [getChildren]
    split
    · rename_i hge
      constructor
      · rintro ⟨l, hl⟩
        exact absurd hl (by simp)
      · intro h
        omega
    · rename_i hlt
      exact ⟨fun _ => by omega, fun _ => ⟨_, rfl⟩⟩

/-- Witness for C10: `"9Z"` contains a symbol outside the alphabet yet
`getParent` succeeds; `getParent "F"` fails; `getChildren` of a
full-precision code fails. -/
theorem parent_children_error_conditions_witness :
    (∃ r, getParent "9Z" = .ok r) ∧ ¬(∃ r, getParent "F" = .ok r) ∧
      ¬(∃ l, getChildren "39J-438-TJC7" = .ok l) :=
  ⟨(parent_children_error_conditions "9Z").1.mpr (by decide),
    fun h => by
      have := (parent_children_error_conditions "F").1.mp h
      revert this
      decide,
    fun h => by
      have := (parent_children_error_conditions "39J-438-TJC7").2.2.mp h
      revert this
      decide⟩

/-! ### Decode preconditions (C6) -/

lemma decodeGo_ok_of_valid :
    ∀ (l : List Char) (i : ℕ) (r : Rect),
      (∀ c ∈ l, c ∈ DIGIPIN_CHARS) → ∃ r', decodeGo l i r = .ok r' := by
  intro l
  induction l with
  | nil => exact fun i r _ => ⟨r, rfl⟩
  | cons c cs ih =>
    intro i r h
    have hsome : (charToPosition c).isSome :=
      (charToPosition_isSome_iff c).mpr (h c (List.mem_cons_self c cs))
    obtain ⟨⟨ri, ci⟩, hp⟩ := Option.isSome_iff_exists.mp hsome
    obtain ⟨r', hr'⟩ := ih (i + 1) (decodeNextRect r ri ci)
      (fun b hb => h b (List.mem_cons_of_mem _ hb))
    exact ⟨r', by simp only [decodeGo, hp]; exact hr'⟩

lemma decodeGo_first_invalid :
    ∀ (l1 : List Char) (c : Char) (l2 : List Char) (i : ℕ) (r : Rect),
      (∀ b ∈ l1, b ∈ DIGIPIN_CHARS) → c ∉ DIGIPIN_CHARS →
      decodeGo (l1 ++ c :: l2) i r = .error (.invalidChar c (i + l1.length + 1)) := by
  intro l1
  induction l1 with
  | nil =>
    intro c l2 i r _ hc
    have hnone : charToPosition c = none :=
      Option.not_isSome_iff_eq_none.mp fun hs =>
        hc ((charToPosition_isSome_iff c).mp hs)
    simp [decodeGo, hnone]
  | cons b l1 ih =>
    intro c l2 i r hvalid hc
    have hsome : (charToPosition b).isSome :=
      (charToPosition_isSome_iff b).mpr (hvalid b (List.mem_cons_self b l1))
    obtain ⟨⟨ri, ci⟩, hp⟩ := Option.isSome_iff_exists.mp hsome
    have hrec := ih c l2 (i + 1) (decodeNextRect r ri ci)
      (fun x hx => hvalid x (List.mem_cons_of_mem _ hx)) hc
    have hstep : decodeGo ((b :: l1) ++ c :: l2) i r =
        decodeGo (l1 ++ c :: l2) (i + 1) (decodeNextRect r ri ci) := by
      rw [List.cons_append]
      simp only [decodeGo, hp]
    have harith : i + 1 + l1.length + 1 = i + (b :: l1).length + 1 := by
      simp only [List.length_cons]
      omega
    rw [hstep, hrec, harith]

lemma exists_first_invalid (l : List Char) (h : ∃ c ∈ l, c ∉ DIGIPIN_CHARS) :
    ∃ (l1 : List Char) (c : Char) (l2 : List Char),
      l = l1 ++ c :: l2 ∧ (∀ b ∈ l1, b ∈ DIGIPIN_CHARS) ∧ c ∉ DIGIPIN_CHARS := by
  induction l with
  | nil => simpa using h
  | cons a l ih =>
    by_cases ha : a ∈ DIGIPIN_CHARS
    · obtain ⟨c, hc, hcn⟩ := h
      rcases List.mem_cons.mp hc with rfl | hc
      · exact ⟨[], c, l, rfl, by simp, hcn⟩
      · obtain ⟨l1, c', l2, rfl, hv, hcn'⟩ := ih ⟨c, hc, hcn⟩
        refine ⟨a :: l1, c', l2, rfl, ?_, hcn'⟩
        intro b hb
        rcases List.mem_cons.mp hb with rfl | hb
        · exact ha
        · exact hv b hb
    · exact ⟨[], a, l, rfl, by simp, ha⟩

/-- C6: `decode` succeeds exactly when the hyphen-stripped, upper-cased
code has length 1–10 and every symbol is in the alphabet; when the
length is admissible but a symbol is invalid, the error names the first
offending symbol and its 1-based position. -/
theorem decode_preconditions (cosDeg : ℚ → ℚ) (s : String) :
    ((∃ res, decode cosDeg s = .ok res) ↔
      (1 ≤ (sanitize s).length ∧ (sanitize s).length ≤ 10 ∧
        ∀ c ∈ sanitize s, c ∈ DIGIPIN_CHARS)) ∧
    (∀ (l1 : List Char) (c : Char) (l2 : List Char), sanitize s = l1 ++ c :: l2 →
      1 ≤ (sanitize s).length → (sanitize s).length ≤ 10 →
      (∀ b ∈ l1, b ∈ DIGIPIN_CHARS) → c ∉ DIGIPIN_CHARS →
      decode cosDeg s = .error (.invalidChar c (l1.length + 1))) := by
  constructor
  · constructor
    · rintro ⟨res, hres⟩
      simp only [decode] at hres
      split at hres
      · exact absurd hres (by simp)
      · rename_i hlen
        refine ⟨by omega, by omega, ?_⟩
        by_contra hbad
        push_neg at hbad
        obtain ⟨l1, c, l2, heq, hv, hcn⟩ := exists_first_invalid _
          (by obtain ⟨c, hc, hcn⟩ := hbad; exact ⟨c, hc, hcn⟩)
        rw [heq, decodeGo_first_invalid l1 c l2 0 rootRect hv hcn] at hres
        exact absurd hres (by simp)
    · rintro ⟨hl, hu, hvalid⟩
      obtain ⟨r', hr'⟩ := decodeGo_ok_of_valid (sanitize s) 0 rootRect hvalid
      simp only [decode]
      rw [if_neg (by omega), hr']
      exact ⟨_, rfl⟩
  · intro l1 c l2 heq hl hu hv hcn
    simp only [decode]
    rw [if_neg (by omega), heq, decodeGo_first_invalid l1 c l2 0 rootRect hv hcn]
    simp

/-- Witness for C6: a lower-case valid code decodes; `"3X9"` fails on
symbol `X` at position 2. -/
theorem decode_preconditions_witness :
    (∃ res, decode (fun _ => 1) "39j" = .ok res) ∧
      decode (fun _ => 1) "3X9" = .error (.invalidChar 'X' 2) :=
  ⟨(decode_preconditions (fun _ => 1) "39j").1.mpr (by decide),
    by
      have h := (decode_preconditions (fun _ => 1) "3X9").2 ['3'] 'X' ['9']
        (by decide) (by decide) (by decide) (by decide) (by decide)
      exact h⟩

/-! ### Decode evaluation and the nesting of decoded rectangles -/

/-- Proof helper: the record `decode` returns for a stripped code of
length `len` whose final working rectangle is `r`. -/
def decodeResultOf (cosDeg : ℚ → ℚ) (len : ℕ) (r : Rect) : DecodeResult :=
  { latitude := (r.minLat + r.maxLat) / 2
    longitude := (r.minLon + r.maxLon) / 2
    precision := len
    bounds := r
    accuracy :=
      { latDegrees := r.maxLat - r.minLat
        lonDegrees := r.maxLon - r.minLon
        approximateMeters :=
          max ((r.maxLat - r.minLat) * 111000)
              ((r.maxLon - r.minLon) * 111000 * cosDeg ((r.minLat + r.maxLat) / 2)) } }

lemma decode_eval (cosDeg : ℚ → ℚ) (s : String) (r' : Rect)
    (hl1 : 1 ≤ (sanitize s).length) (hl10 : (sanitize s).length ≤ 10)
    (h : decodeGo (sanitize s) 0 rootRect = .ok r') :
    decode cosDeg s = .ok (decodeResultOf cosDeg (sanitize s).length r') := by
  simp only [decode]
  rw [if_neg (by omega), h]
  rfl

lemma decodeNextRect_extent_lat (r : Rect) (ri ci : ℕ) :
    (decodeNextRect r ri ci).maxLat - (decodeNextRect r ri ci).minLat =
      (r.maxLat - r.minLat) / 4 := by
  simp only [decodeNextRect]
  ring

lemma decodeNextRect_extent_lon (r : Rect) (ri ci : ℕ) :
    (decodeNextRect r ri ci).maxLon - (decodeNextRect r ri ci).minLon =
      (r.maxLon - r.minLon) / 4 := by
  simp only [decodeNextRect]
  ring

lemma decodeGo_pos_extent :
    ∀ (l : List Char) (i : ℕ) (r r' : Rect),
      decodeGo l i r = .ok r' →
      0 < r.maxLat - r.minLat → 0 < r.maxLon - r.minLon →
      0 < r'.maxLat - r'.minLat ∧ 0 < r'.maxLon - r'.minLon := by
  intro l
  induction l with
  | nil =>
    intro i r r' h hlat hlon
    obtain rfl : r = r' := by simpa [decodeGo] using h
    exact ⟨hlat, hlon⟩
  | cons c cs ih =>
    intro i r r' h hlat hlon
    simp only [decodeGo] at h
    rcases hp : charToPosition c with - | ⟨ri, ci⟩
    · rw [hp] at h
      exact absurd h (by simp)
    · rw [hp] at h
      exact ih (i + 1) _ r' h
        (by rw [decodeNextRect_extent_lat]; linarith)
        (by rw [decodeNextRect_extent_lon]; linarith)

lemma decodeGo_append_ok :
    ∀ (l1 : List Char) (l2 : List Char) (i : ℕ) (r r' : Rect),
      decodeGo l1 i r = .ok r' →
      decodeGo (l1 ++ l2) i r = decodeGo l2 (i + l1.length) r' := by
  intro l1
  induction l1 with
  | nil =>
    intro l2 i r r' h
    obtain rfl : r = r' := by simpa [decodeGo] using h
    simp
  | cons c cs ih =>
    intro l2 i r r' h
    simp only [decodeGo] at h
    rcases hp : charToPosition c with - | ⟨ri, ci⟩
    · rw [hp] at h
      exact absurd h (by simp)
    · rw [hp] at h
      rw [List.cons_append]
      simp only [decodeGo, hp]
      rw [ih l2 (i + 1) _ r' h]
      congr 1
      simp only [List.length_cons]
      omega

lemma decodeNextRect_subset (r : Rect) (ri ci : ℕ) (hri : ri < 4) (hci : ci < 4)
    (hlat : 0 < r.maxLat - r.minLat) (hlon : 0 < r.maxLon - r.minLon) :
    r.minLat ≤ (decodeNextRect r ri ci).minLat ∧
    (decodeNextRect r ri ci).maxLat ≤ r.maxLat ∧
    r.minLon ≤ (decodeNextRect r ri ci).minLon ∧
    (decodeNextRect r ri ci).maxLon ≤ r.maxLon ∧
    (r.minLat < (decodeNextRect r ri ci).minLat ∨
      (decodeNextRect r ri ci).maxLat < r.maxLat ∨
      r.minLon < (decodeNextRect r ri ci).minLon ∨
      (decodeNextRect r ri ci).maxLon < r.maxLon) := by
  have hri' : (ri : ℚ) ≤ 3 := by exact_mod_cast Nat.lt_succ_iff.mp hri
  have hri0 : (0 : ℚ) ≤ (ri : ℚ) := by positivity
  have hci' : (ci : ℚ) ≤ 3 := by exact_mod_cast Nat.lt_succ_iff.mp hci
  have hci0 : (0 : ℚ) ≤ (ci : ℚ) := by positivity
  simp only [decodeNextRect]
  refine ⟨by nlinarith, by nlinarith, by nlinarith, by nlinarith, ?_⟩
  rcases Nat.eq_zero_or_pos ri with hz | hpos
  · subst hz
    left
    push_cast
    nlinarith
  · right
    left
    have h1 : (1 : ℚ) ≤ (ri : ℚ) := by exact_mod_cast hpos
    nlinarith

lemma sanitize_parent (s : String) :
    sanitize ⟨(stripHyphens s).dropLast⟩ = (sanitize s).dropLast := by
  unfold sanitize stripHyphens
  have hnod : '-' ∉ (s.data.filter (· ≠ '-')).dropLast := by
    intro hmem
    have h2 := (List.dropLast_sublist (s.data.filter (· ≠ '-'))).subset hmem
    have := List.of_mem_filter h2
    simp at this
  show ((s.data.filter (· ≠ '-')).dropLast.filter (· ≠ '-')).map Char.toUpper =
    ((s.data.filter (· ≠ '-')).map Char.toUpper).dropLast
  rw [filter_dash_of_no_dash _ hnod, List.map_dropLast]

/-- C7: for every valid code of stripped length at least 2, the decoded
bounds are contained in the decoded bounds of its parent (the one-symbol-
shorter prefix), with strict inequality on at least one edge. -/
theorem monotonic_nesting (cosDeg : ℚ → ℚ) (s : String)
    (hlen2 : 2 ≤ (sanitize s).length) (hlen10 : (sanitize s).length ≤ 10)
    (hvalid : ∀ c ∈ sanitize s, c ∈ DIGIPIN_CHARS) :
    ∃ (parent : String) (res resP : DecodeResult),
      getParent s = .ok parent ∧ decode cosDeg s = .ok res ∧
      decode cosDeg parent = .ok resP ∧
      resP.bounds.minLat ≤ res.bounds.minLat ∧
      res.bounds.maxLat ≤ resP.bounds.maxLat ∧
      resP.bounds.minLon ≤ res.bounds.minLon ∧
      res.bounds.maxLon ≤ resP.bounds.maxLon ∧
      (resP.bounds.minLat < res.bounds.minLat ∨
        res.bounds.maxLat < resP.bounds.maxLat ∨
        resP.bounds.minLon < res.bounds.minLon ∨
        res.bounds.maxLon < resP.bounds.maxLon) := by
  have hslen : (stripHyphens s).length = (sanitize s).length := by
    unfold sanitize stripHyphens
    rw [List.length_map]
  have hparent : getParent s = .ok ⟨(stripHyphens s).dropLast⟩ := by
    simp only [getParent]
    rw [if_neg (by omega)]
  have hsanp := sanitize_parent s
  have hplen : (sanitize ⟨(stripHyphens s).dropLast⟩).length = (sanitize s).length - 1 := by
    rw [hsanp, List.length_dropLast]
  have hpvalid : ∀ c ∈ sanitize ⟨(stripHyphens s).dropLast⟩, c ∈ DIGIPIN_CHARS := by
    rw [hsanp]
    intro c hc
    exact hvalid c ((List.dropLast_sublist (sanitize s)).subset hc)
  obtain ⟨rP, hrP⟩ := decodeGo_ok_of_valid _ 0 rootRect hpvalid
  have hne : sanitize s ≠ [] := by
    intro h
    rw [h] at hlen2
    simp at hlen2
  have hsplit : (sanitize s).dropLast ++ [(sanitize s).getLast hne] = sanitize s :=
    List.dropLast_append_getLast hne
  have hlastmem : (sanitize s).getLast hne ∈ sanitize s := List.getLast_mem hne
  obtain ⟨⟨ri, ci⟩, hp⟩ := Option.isSome_iff_exists.mp
    ((charToPosition_isSome_iff _).mpr (hvalid _ hlastmem))
  obtain ⟨hri, hci⟩ := charToPosition_lt _ _ hp
  have hrP' : decodeGo ((sanitize s).dropLast) 0 rootRect = .ok rP := by
    rw [← hsanp]; exact hrP
  have hfull : decodeGo (sanitize s) 0 rootRect = .ok (decodeNextRect rP ri ci) := by
    rw [← hsplit, decodeGo_append_ok _ _ 0 rootRect rP hrP']
    simp [decodeGo, hp]
  obtain ⟨hplat, hplon⟩ := decodeGo_pos_extent _ 0 rootRect rP hrP'
    (by norm_num [rootRect]) (by norm_num [rootRect])
  have hdecS := decode_eval cosDeg s _ (by omega) hlen10 hfull
  have hdecP := decode_eval cosDeg ⟨(stripHyphens s).dropLast⟩ rP
    (by omega) (by omega) hrP
  obtain ⟨h1, h2, h3, h4, h5⟩ := decodeNextRect_subset rP ri ci hri hci hplat hplon
  exact ⟨_, _, _, hparent, hdecS, hdecP, h1, h2, h3, h4, h5⟩

/-- Witness for C7 at the concrete code `"39J"`. -/
theorem monotonic_nesting_witness :
    ∃ (parent : String) (res resP : DecodeResult),
      getParent "39J" = .ok parent ∧ decode (fun _ => 1) "39J" = .ok res ∧
      decode (fun _ => 1) parent = .ok resP ∧
      resP.bounds.minLat ≤ res.bounds.minLat ∧
      res.bounds.maxLat ≤ resP.bounds.maxLat ∧
      resP.bounds.minLon ≤ res.bounds.minLon ∧
      res.bounds.maxLon ≤ resP.bounds.maxLon ∧
      (resP.bounds.minLat < res.bounds.minLat ∨
        res.bounds.maxLat < resP.bounds.maxLat ∨
        resP.bounds.minLon < res.bounds.minLon ∨
        res.bounds.maxLon < resP.bounds.maxLon) :=
  monotonic_nesting (fun _ => 1) "39J" (by decide) (by decide) (by decide)

/-! ### Root-lattice alignment of decoded rectangles (for C8) -/

/-- The rectangle of a depth-`L` cell: both extents are `36 / 4 ^ L` and
the southwest corner sits on the root-anchored lattice, strictly inside
the root span. -/
def latticeAligned (L : ℕ) (r : Rect) : Prop :=
  ∃ a b : ℕ, a + 1 ≤ 4 ^ L ∧ b + 1 ≤ 4 ^ L ∧
    r.minLat = rootRect.minLat + (a : ℚ) * (36 / 4 ^ L) ∧
    r.maxLat = r.minLat + 36 / 4 ^ L ∧
    r.minLon = rootRect.minLon + (b : ℚ) * (36 / 4 ^ L) ∧
    r.maxLon = r.minLon + 36 / 4 ^ L

lemma latticeAligned_root : latticeAligned 0 rootRect := by
  refine ⟨0, 0, by norm_num, by norm_num, ?_, ?_, ?_, ?_⟩ <;> norm_num [rootRect]

lemma latticeAligned_step (L : ℕ) (r : Rect) (ri ci : ℕ) (hri : ri < 4) (hci : ci < 4)
    (h : latticeAligned L r) : latticeAligned (L + 1) (decodeNextRect r ri ci) := by
  obtain ⟨a, b, ha, hb, h1, h2, h3, h4⟩ := h
  have hp4 : (4 : ℚ) ^ (L + 1) = 4 ^ L * 4 := pow_succ 4 L
  have hpos : (0 : ℚ) < 4 ^ L := by positivity
  have hcastr : ((4 * a + (3 - ri) : ℕ) : ℚ) = 4 * (a : ℚ) + 3 - (ri : ℚ) := by
    push_cast [Nat.cast_sub (by omega : ri ≤ 3)]
    ring
  have hcastc : ((4 * b + ci : ℕ) : ℚ) = 4 * (b : ℚ) + (ci : ℚ) := by push_cast; ring
  have hp4n : 4 ^ (L + 1) = 4 ^ L * 4 := pow_succ 4 L
  refine ⟨4 * a + (3 - ri), 4 * b + ci, by omega, by omega, ?_, ?_, ?_, ?_⟩
  · simp only [decodeNextRect]
    rw [h2, h1, hcastr, hp4]
    field_simp
    ring
  · simp only [decodeNextRect]
    rw [h2, h1, hp4]
    field_simp
    ring
  · simp only [decodeNextRect]
    rw [h4, h3, hcastc, hp4]
    field_simp
    ring
  · simp only [decodeNextRect]
    rw [h4, h3, hp4]
    field_simp
    ring

lemma decodeGo_latticeAligned :
    ∀ (l : List Char) (L : ℕ) (i : ℕ) (r r' : Rect),
      decodeGo l i r = .ok r' → latticeAligned L r →
      latticeAligned (L + l.length) r' := by
  intro l
  induction l with
  | nil =>
    intro L i r r' h hal
    obtain rfl : r = r' := by simpa [decodeGo] using h
    simpa using hal
  | cons c cs ih =>
    intro L i r r' h hal
    simp only [decodeGo] at h
    rcases hp : charToPosition c with - | ⟨ri, ci⟩
    · rw [hp] at h
      exact absurd h (by simp)
    · rw [hp] at h
      obtain ⟨hri, hci⟩ := charToPosition_lt c _ hp
      have := ih (L + 1) (i + 1) _ r' h (latticeAligned_step L r ri ci hri hci hal)
      have harith : L + 1 + cs.length = L + (c :: cs).length := by
        simp only [List.length_cons]
        omega
      rwa [harith] at this

lemma length_filterMap_of_all_some {α β : Type} (f : α → Option β) :
    ∀ l : List α, (∀ x ∈ l, (f x).isSome) → (l.filterMap f).length = l.length := by
  intro l
  induction l with
  | nil => intro _; rfl
  | cons a l ih =>
    intro h
    obtain ⟨bval, hb⟩ := Option.isSome_iff_exists.mp (h a (List.mem_cons_self a l))
    rw [List.filterMap_cons, hb, List.length_cons,
      ih fun x hx => h x (List.mem_cons_of_mem _ hx)]
    rfl

/-! ### Neighbor count (C8) -/

lemma axis_offset_inside (L a : ℕ) (base lo : ℚ)
    (ha1 : 1 ≤ a) (ha2 : a + 2 ≤ 4 ^ L)
    (hlo : lo = base + (a : ℚ) * (36 / 4 ^ L))
    (d : ℚ) (hd : d = 36 / 4 ^ L ∨ d = 0 ∨ d = -(36 / 4 ^ L)) :
    base ≤ (lo + (lo + 36 / 4 ^ L)) / 2 + d ∧
      (lo + (lo + 36 / 4 ^ L)) / 2 + d ≤ base + 36 := by
  have hpos : (0 : ℚ) < 4 ^ L := by positivity
  have he : (0 : ℚ) < 36 / 4 ^ L := by positivity
  have h36 : (4 : ℚ) ^ L * (36 / 4 ^ L) = 36 := by field_simp
  have haQ : (1 : ℚ) ≤ (a : ℚ) := by exact_mod_cast ha1
  have haQ2 : (a : ℚ) + 2 ≤ (4 : ℚ) ^ L := by exact_mod_cast ha2
  have hub : (a : ℚ) * (36 / 4 ^ L) + 2 * (36 / 4 ^ L) ≤ 36 := by
    calc (a : ℚ) * (36 / 4 ^ L) + 2 * (36 / 4 ^ L) = ((a : ℚ) + 2) * (36 / 4 ^ L) := by
          ring
    _ ≤ (4 : ℚ) ^ L * (36 / 4 ^ L) := mul_le_mul_of_nonneg_right haQ2 he.le
    _ = 36 := h36
  have hlb : (36 / 4 ^ L : ℚ) ≤ (a : ℚ) * (36 / 4 ^ L) := by
    calc (36 / 4 ^ L : ℚ) = 1 * (36 / 4 ^ L) := by ring
    _ ≤ (a : ℚ) * (36 / 4 ^ L) := mul_le_mul_of_nonneg_right haQ he.le
  subst hlo
  rcases hd with rfl | rfl | rfl <;> constructor <;> linarith

lemma neighborDirections_shape (A B : ℚ) :
    ∀ dir ∈ neighborDirections A B,
      (dir.1 = A ∨ dir.1 = 0 ∨ dir.1 = -A) ∧ (dir.2 = B ∨ dir.2 = 0 ∨ dir.2 = -B) := by
  intro dir hdir
  simp only [neighborDirections, List.mem_cons, List.not_mem_nil, or_false] at hdir
  rcases hdir with rfl | rfl | rfl | rfl | rfl | rfl | rfl | rfl <;> simp

/-- C8: for every valid code, `getNeighbors` returns at most 8 codes,
and exactly 8 when the decoded cell does not touch a `rootRect` edge;
offsets outside `rootRect` are dropped silently rather than raising. -/
theorem neighbor_count (cosDeg : ℚ → ℚ) (s : String)
    (hl1 : 1 ≤ (sanitize s).length) (hl10 : (sanitize s).length ≤ 10)
    (hvalid : ∀ c ∈ sanitize s, c ∈ DIGIPIN_CHARS) :
    ∃ (res : DecodeResult) (l : List String),
      decode cosDeg s = .ok res ∧ getNeighbors cosDeg s = .ok l ∧
      l.length ≤ 8 ∧
      ((rootRect.minLat < res.bounds.minLat ∧ res.bounds.maxLat < rootRect.maxLat ∧
        rootRect.minLon < res.bounds.minLon ∧ res.bounds.maxLon < rootRect.maxLon) →
        l.length = 8) := by
  obtain ⟨r', hr'⟩ := decodeGo_ok_of_valid (sanitize s) 0 rootRect hvalid
  have hdec := decode_eval cosDeg s r' hl1 hl10 hr'
  have hn : getNeighbors cosDeg s = .ok
      ((neighborDirections
        ((decodeResultOf cosDeg (sanitize s).length r').bounds.maxLat -
          (decodeResultOf cosDeg (sanitize s).length r').bounds.minLat)
        ((decodeResultOf cosDeg (sanitize s).length r').bounds.maxLon -
          (decodeResultOf cosDeg (sanitize s).length r').bounds.minLon)).filterMap
        fun dir =>
          if rootRect.minLat ≤ (decodeResultOf cosDeg (sanitize s).length r').latitude + dir.1 ∧
             (decodeResultOf cosDeg (sanitize s).length r').latitude + dir.1 ≤ rootRect.maxLat ∧
             rootRect.minLon ≤ (decodeResultOf cosDeg (sanitize s).length r').longitude + dir.2 ∧
             (decodeResultOf cosDeg (sanitize s).length r').longitude + dir.2 ≤ rootRect.maxLon
          then (encode ((decodeResultOf cosDeg (sanitize s).length r').latitude + dir.1)
            ((decodeResultOf cosDeg (sanitize s).length r').longitude + dir.2)
            ((decodeResultOf cosDeg (sanitize s).length r').precision : ℤ)).toOption
          else none) := by
    simp only [getNeighbors, hdec]
  refine ⟨decodeResultOf cosDeg (sanitize s).length r', _, hdec, hn, ?_, ?_⟩
  · calc ((neighborDirections _ _).filterMap _).length
        ≤ (neighborDirections _ _).length := List.length_filterMap_le _ _
    _ = 8 := rfl
  · rintro ⟨hi1, hi2, hi3, hi4⟩
    simp only [decodeResultOf] at hi1 hi2 hi3 hi4 ⊢
    have halign := decodeGo_latticeAligned (sanitize s) 0 0 rootRect r' hr'
      latticeAligned_root
    rw [Nat.zero_add] at halign
    obtain ⟨a, b, hab1, hab2, h1, h2, h3, h4⟩ := halign
    have hpos : (0 : ℚ) < 4 ^ (sanitize s).length := by positivity
    have he : (0 : ℚ) < 36 / 4 ^ (sanitize s).length := by positivity
    have h36 : (4 : ℚ) ^ (sanitize s).length * (36 / 4 ^ (sanitize s).length) = 36 := by
      field_simp
    have hr36 : rootRect.maxLat = rootRect.minLat + 36 := by norm_num [rootRect]
    have hr36' : rootRect.maxLon = rootRect.minLon + 36 := by norm_num [rootRect]
    have ha1 : 1 ≤ a := by
      rcases Nat.eq_zero_or_pos a with rfl | hposa
      · rw [h1] at hi1
        norm_num at hi1
      · omega
    have hb1 : 1 ≤ b := by
      rcases Nat.eq_zero_or_pos b with rfl | hposb
      · rw [h3] at hi3
        norm_num at hi3
      · omega
    have ha2 : a + 2 ≤ 4 ^ (sanitize s).length := by
      rw [h2, h1, hr36] at hi2
      have hlin : (a : ℚ) * (36 / 4 ^ (sanitize s).length) + 36 / 4 ^ (sanitize s).length <
          4 ^ (sanitize s).length * (36 / 4 ^ (sanitize s).length) := by
        rw [h36]
        linarith
      have hmul : ((a : ℚ) + 1) * (36 / 4 ^ (sanitize s).length) <
          (4 : ℚ) ^ (sanitize s).length * (36 / 4 ^ (sanitize s).length) := by
        ring_nf
        ring_nf at hlin
        linarith
      have hQ : (a : ℚ) + 1 < (4 : ℚ) ^ (sanitize s).length :=
        (mul_lt_mul_right he).mp hmul
      have hN : a + 1 < 4 ^ (sanitize s).length := by exact_mod_cast hQ
      omega
    have hb2 : b + 2 ≤ 4 ^ (sanitize s).length := by
      rw [h4, h3, hr36'] at hi4
      have hlin : (b : ℚ) * (36 / 4 ^ (sanitize s).length) + 36 / 4 ^ (sanitize s).length <
          4 ^ (sanitize s).length * (36 / 4 ^ (sanitize s).length) := by
        rw [h36]
        linarith
      have hmul : ((b : ℚ) + 1) * (36 / 4 ^ (sanitize s).length) <
          (4 : ℚ) ^ (sanitize s).length * (36 / 4 ^ (sanitize s).length) := by
        ring_nf
        ring_nf at hlin
        linarith
      have hQ : (b : ℚ) + 1 < (4 : ℚ) ^ (sanitize s).length :=
        (mul_lt_mul_right he).mp hmul
      have hN : b + 1 < 4 ^ (sanitize s).length := by exact_mod_cast hQ
      omega
    rw [length_filterMap_of_all_some]
    · rfl
    · intro dir hdir
      obtain ⟨hd1, hd2⟩ := neighborDirections_shape _ _ dir hdir
      have hstep : r'.maxLat - r'.minLat = 36 / 4 ^ (sanitize s).length := by
        rw [h2]
        ring
      have hstep' : r'.maxLon - r'.minLon = 36 / 4 ^ (sanitize s).length := by
        rw [h4]
        ring
      rw [hstep] at hd1
      rw [hstep'] at hd2
      have hax := axis_offset_inside (sanitize s).length a rootRect.minLat r'.minLat
        ha1 ha2 h1 dir.1 hd1
      have hax' := axis_offset_inside (sanitize s).length b rootRect.minLon r'.minLon
        hb1 hb2 h3 dir.2 hd2
      rw [← h2] at hax
      rw [← h4] at hax'
      rw [← hr36] at hax
      rw [← hr36'] at hax'
      rw [if_pos ⟨hax.1, hax.2, hax'.1, hax'.2⟩]
      rw [encode_eq_ok _ _ _ (by exact_mod_cast hl1) (by exact_mod_cast hl10)
        hax.1 hax.2 hax'.1 hax'.2]
      rfl

/-- Witness for C8 at the interior cell `"58"`. -/
theorem neighbor_count_witness :
    ∃ (res : DecodeResult) (l : List String),
      decode (fun _ => 1) "58" = .ok res ∧ getNeighbors (fun _ => 1) "58" = .ok l ∧
      l.length ≤ 8 ∧
      ((rootRect.minLat < res.bounds.minLat ∧ res.bounds.maxLat < rootRect.maxLat ∧
        rootRect.minLon < res.bounds.minLon ∧ res.bounds.maxLon < rootRect.maxLon) →
        l.length = 8) :=
  neighbor_count (fun _ => 1) "58" (by decide) (by decide) (by decide)

/-! ### Accuracy (C9) -/

lemma approx_meters_eq (cosDeg : ℚ → ℚ) (hcos : ∀ x, cosDeg x ≤ 1)
    (lat lon : ℚ) (p : ℤ) (hp1 : 1 ≤ p) (hp10 : p ≤ 10)
    (h1 : rootRect.minLat ≤ lat) (h2 : lat ≤ rootRect.maxLat)
    (h3 : rootRect.minLon ≤ lon) (h4 : lon ≤ rootRect.maxLon) :
    ∃ (c : String) (r : DecodeResult), encode lat lon p = .ok c ∧
      decode cosDeg c = .ok r ∧
      r.accuracy.approximateMeters = 36 / 4 ^ p.toNat * 111000 := by
  obtain ⟨res, hres, hb, hprec, hlat, hlon, hacc⟩ :=
    decode_encode_output cosDeg lat lon p hp1 hp10 h1 h2 h3 h4
  obtain ⟨-, -, -, -, hlatx, hlonx⟩ :=
    encodeGo_spec lat lon p.toNat p.toNat 1 rootRect ⟨h1, h2, h3, h4⟩
      (by norm_num [rootRect]) (by norm_num [rootRect])
  rw [rootRect_extent_lat] at hlatx
  rw [rootRect_extent_lon] at hlonx
  refine ⟨_, res, encode_eq_ok lat lon p hp1 hp10 h1 h2 h3 h4, hres, ?_⟩
  rw [hacc, hb, hlatx, hlonx]
  have hpos : (0 : ℚ) < 36 / 4 ^ p.toNat * 111000 := by positivity
  have hle : 36 / 4 ^ p.toNat * 111000 * cosDeg res.latitude ≤
      36 / 4 ^ p.toNat * 111000 :=
    mul_le_of_le_one_right hpos.le (hcos _)
  exact max_eq_left hle

/-- C9: for a fixed valid coordinate, `accuracy.approximateMeters`
strictly decreases as precision increases (its value is exactly
`36 / 4 ^ p × 111000` whenever `Math.cos ≤ 1`), matching the documented
scale: ≈ 1 km at level 6 and ≈ 3.8 m at level 10. -/
theorem accuracy_monotonicity (cosDeg : ℚ → ℚ) (hcos : ∀ x, cosDeg x ≤ 1)
    (lat lon : ℚ)
    (h1 : rootRect.minLat ≤ lat) (h2 : lat ≤ rootRect.maxLat)
    (h3 : rootRect.minLon ≤ lon) (h4 : lon ≤ rootRect.maxLon)
    (p q : ℤ) (hp1 : 1 ≤ p) (hpq : p < q) (hq10 : q ≤ 10) :
    ∃ (cp cq : String) (rp rq : DecodeResult),
      encode lat lon p = .ok cp ∧ encode lat lon q = .ok cq ∧
      decode cosDeg cp = .ok rp ∧ decode cosDeg cq = .ok rq ∧
      rq.accuracy.approximateMeters < rp.accuracy.approximateMeters ∧
      (p = 6 → 950 ≤ rp.accuracy.approximateMeters ∧
        rp.accuracy.approximateMeters ≤ 1000) ∧
      (q = 10 → 19 / 5 ≤ rq.accuracy.approximateMeters ∧
        rq.accuracy.approximateMeters ≤ 191 / 50) := by
  obtain ⟨cp, rp, hcp, hrp, haccp⟩ :=
    approx_meters_eq cosDeg hcos lat lon p hp1 (by omega) h1 h2 h3 h4
  obtain ⟨cq, rq, hcq, hrq, haccq⟩ :=
    approx_meters_eq cosDeg hcos lat lon q (by omega) hq10 h1 h2 h3 h4
  have hnlt : p.toNat < q.toNat := by omega
  refine ⟨cp, cq, rp, rq, hcp, hcq, hrp, hrq, ?_, ?_, ?_⟩
  · rw [haccp, haccq]
    have hppos : (0 : ℚ) < 4 ^ p.toNat := by positivity
    have hqpos : (0 : ℚ) < 4 ^ q.toNat := by positivity
    have hpow : (4 : ℚ) ^ p.toNat < 4 ^ q.toNat := by
      exact pow_lt_pow_right₀ (by norm_num) hnlt
    have hdiv : (36 : ℚ) / 4 ^ q.toNat < 36 / 4 ^ p.toNat :=
      div_lt_div_of_pos_left (by norm_num) hppos hpow
    nlinarith
  · intro hp6
    subst hp6
    rw [haccp, show Int.toNat 6 = 6 from rfl]
    norm_num
  · intro hq10'
    subst hq10'
    rw [haccq, show Int.toNat 10 = 10 from rfl]
    norm_num

/-- Witness for C9 at `(3, 64)` with precisions 6 and 10, and the
constant-one cosine model (which satisfies the `≤ 1` bound). -/
theorem accuracy_monotonicity_witness :
    ∃ (cp cq : String) (rp rq : DecodeResult),
      encode 3 64 6 = .ok cp ∧ encode 3 64 10 = .ok cq ∧
      decode (fun _ => 1) cp = .ok rp ∧ decode (fun _ => 1) cq = .ok rq ∧
      rq.accuracy.approximateMeters < rp.accuracy.approximateMeters ∧
      ((6 : ℤ) = 6 → 950 ≤ rp.accuracy.approximateMeters ∧
        rp.accuracy.approximateMeters ≤ 1000) ∧
      ((10 : ℤ) = 10 → 19 / 5 ≤ rq.accuracy.approximateMeters ∧
        rq.accuracy.approximateMeters ≤ 191 / 50) :=
  accuracy_monotonicity (fun _ => 1) (fun _ => le_refl 1) 3 64
    (by norm_num [rootRect]) (by norm_num [rootRect]) (by norm_num [rootRect])
    (by norm_num [rootRect]) 6 10 (by norm_num) (by norm_num) (by norm_num)

/-! ### The generateGrid sampling lattice (C3) -/

lemma gridCellSize_closed_form (p : ℤ) :
    gridCellSize p = 36 / 4 ^ (p - 1).toNat := by
  unfold gridCellSize
  generalize (p - 1).toNat = n
  induction n with
  | zero => norm_num
  | succ m ih =>
    rw [List.range_succ, List.foldl_append, ih, List.foldl_cons, List.foldl_nil,
      pow_succ]
    field_simp

lemma mem_foldl_insertUnique (x : String) :
    ∀ (l : List String) (acc : List String),
      x ∈ l.foldl insertUnique acc ↔ x ∈ acc ∨ x ∈ l := by
  intro l
  induction l with
  | nil => simp
  | cons a l ih =>
    intro acc
    rw [List.foldl_cons, ih]
    unfold insertUnique
    constructor
    · rintro (hx | hx)
      · split at hx
        · exact Or.inl hx
        · rcases List.mem_append.mp hx with hx | hx
          · exact Or.inl hx
          · simp only [List.mem_singleton] at hx
            exact Or.inr (hx ▸ List.mem_cons_self a l)
      · exact Or.inr (List.mem_cons_of_mem a hx)
    · rintro (hx | hx)
      · left
        split
        · exact hx
        · exact List.mem_append.mpr (Or.inl hx)
      · rcases List.mem_cons.mp hx with rfl | hx
        · left
          split
          · assumption
          · exact List.mem_append.mpr (Or.inr (List.mem_singleton.mpr rfl))
        · exact Or.inr hx

lemma gridSamples_mem (start stop c x : ℚ) (hc : 0 < c) (hss : start ≤ stop) :
    x ∈ gridSamples start stop c ↔ ∃ k : ℕ, x = start + (k : ℚ) * c ∧ x ≤ stop := by
  unfold gridSamples
  rw [if_pos ⟨hc, hss⟩]
  have hfl : 0 ≤ ⌊(stop - start) / c⌋ :=
    Int.le_floor.mpr (by push_cast; exact div_nonneg (by linarith) hc.le)
  constructor
  · intro hx
    obtain ⟨k, hk, hkx⟩ := List.mem_map.mp hx
    have hkr := List.mem_range.mp hk
    refine ⟨k, hkx.symm, ?_⟩
    have hk' : (k : ℤ) ≤ ⌊(stop - start) / c⌋ := by omega
    have hkq : (k : ℚ) ≤ (stop - start) / c :=
      le_trans (by exact_mod_cast hk') (Int.floor_le _)
    have hmul := (le_div_iff hc).mp hkq
    rw [← hkx]
    linarith
  · rintro ⟨k, rfl, hle⟩
    refine List.mem_map.mpr ⟨k, List.mem_range.mpr ?_, rfl⟩
    have hkq : (k : ℚ) ≤ (stop - start) / c := by
      rw [le_div_iff hc]
      linarith
    have hk' : (k : ℤ) ≤ ⌊(stop - start) / c⌋ := Int.le_floor.mpr (by
      push_cast
      exact hkq)
    omega

/-- C3 (amended): `generateGrid` samples candidate points on a regular
lattice whose pitch along each axis is `rootExtent / 4 ^ (precision - 1)`
— one level coarser than the claim's `rootExtent / 4 ^ precision` —
snapped to whole multiples of the pitch via the floor-snap of the
rectangle's southwest corner; every emitted code is the encoding of such
an in-coverage lattice point inside the rectangle. -/
theorem generateGrid_lattice_pitch (box : GeoBox) (p : ℤ) (l : List String)
    (h : generateGrid box p = .ok l) :
    gridCellSize p = 36 / 4 ^ (p - 1).toNat ∧
    ∀ pin ∈ l, ∃ lat lon : ℚ,
      lat ∈ gridSamples (⌊box.south / gridCellSize p⌋ * gridCellSize p) box.north
        (gridCellSize p) ∧
      lon ∈ gridSamples (⌊box.west / gridCellSize p⌋ * gridCellSize p) box.east
        (gridCellSize p) ∧
      rootRect.minLat ≤ lat ∧ lat ≤ rootRect.maxLat ∧
      rootRect.minLon ≤ lon ∧ lon ≤ rootRect.maxLon ∧
      encode lat lon p = .ok pin := by
  refine ⟨gridCellSize_closed_form p, ?_⟩
  intro pin hpin
  simp only [generateGrid] at h
  split at h
  · exact absurd h (by simp)
  split at h
  · exact absurd h (by simp)
  obtain rfl := Except.ok.inj h
  have hmem := (mem_foldl_insertUnique pin _ []).mp hpin
  simp only [List.not_mem_nil, false_or] at hmem
  obtain ⟨lat, hlat, hinner⟩ := List.mem_flatMap.mp hmem
  obtain ⟨lon, hlon, hf⟩ := List.mem_filterMap.mp hinner
  refine ⟨lat, lon, hlat, hlon, ?_⟩
  split at hf
  · rename_i hcond
    obtain ⟨hc1, hc2, hc3, hc4⟩ := hcond
    refine ⟨hc1, hc2, hc3, hc4, ?_⟩
    cases hE : encode lat lon p with
    | ok v =>
      rw [hE] at hf
      simp only [Except.toOption] at hf
      obtain rfl := Option.some.inj hf
      rfl
    | error e =>
      rw [hE] at hf
      simp [Except.toOption] at hf
  · exact absurd hf (by simp)


lemma evalCellSizeTwo : gridCellSize 2 = 9 := by
  rw [gridCellSize_closed_form]
  norm_num

lemma evalRowColRootLL : encodeRowCol (9/2 : ℚ) (261/4 : ℚ) rootRect = (3, 0) := by
  simp only [encodeRowCol, rootRect]
  norm_num
  decide

lemma evalNextRectRootLL : encodeNextRect rootRect 3 0 = ⟨5/2, 23/2, 127/2, 145/2⟩ := by
  simp only [encodeNextRect, rootRect]
  ext <;> push_cast <;> norm_num

lemma evalRowColStepLL : encodeRowCol (9/2 : ℚ) (261/4 : ℚ) ⟨5/2, 23/2, 127/2, 145/2⟩ = (3, 0) := by
  simp only [encodeRowCol]
  norm_num
  decide

lemma evalNextRectStepLL : encodeNextRect ⟨5/2, 23/2, 127/2, 145/2⟩ 3 0 =
    ⟨5/2, 19/4, 127/2, 263/4⟩ := by
  simp only [encodeNextRect]
  ext <;> push_cast <;> norm_num

lemma evalGridCharL : gridChar 3 0 = 'L' := rfl

lemma evalEncodeGoLL : encodeGo (9/2 : ℚ) (261/4 : ℚ) 2 1 2 rootRect =
    (⟨5/2, 19/4, 127/2, 263/4⟩, ['L', 'L']) := by
  rw [show encodeGo (9/2 : ℚ) (261/4 : ℚ) 2 1 2 rootRect =
    encodeGo (9/2 : ℚ) (261/4 : ℚ) 2 1 (1+1) rootRect from rfl]
  rw [encodeGo_succ]
  simp only [evalRowColRootLL, evalNextRectRootLL, evalGridCharL]
  rw [show encodeGo (9/2 : ℚ) (261/4 : ℚ) 2 (1+1) 1 ⟨5/2, 23/2, 127/2, 145/2⟩ =
    encodeGo (9/2 : ℚ) (261/4 : ℚ) 2 (1+1) (0+1) ⟨5/2, 23/2, 127/2, 145/2⟩ from rfl]
  rw [encodeGo_succ]
  simp only [evalRowColStepLL, evalNextRectStepLL, evalGridCharL, encodeGo_zero]
  norm_num


lemma evalLatSamplesCode : gridSamples ((⌊(5/2 : ℚ) / 9⌋ : ℚ) * 9) (19/4) 9 = [0] := by
  have h0 : ((⌊(5/2 : ℚ) / 9⌋ : ℚ) * 9) = 0 := by norm_num
  rw [h0]
  unfold gridSamples
  rw [if_pos (by norm_num)]
  have h1 : ⌊((19/4 : ℚ) - 0) / 9⌋ = 0 := by norm_num
  rw [h1]
  rw [show List.range (Int.toNat 0 + 1) = [0] from rfl]
  simp only [List.map_cons, List.map_nil]
  norm_num

lemma evalLonSamplesCode : gridSamples ((⌊(127/2 : ℚ) / 9⌋ : ℚ) * 9) (263/4) 9 = [63] := by
  have h0 : ((⌊(127/2 : ℚ) / 9⌋ : ℚ) * 9) = 63 := by norm_num
  rw [h0]
  unfold gridSamples
  rw [if_pos (by norm_num)]
  have h1 : ⌊((263/4 : ℚ) - 63) / 9⌋ = 0 := by norm_num
  rw [h1]
  rw [show List.range (Int.toNat 0 + 1) = [0] from rfl]
  simp only [List.map_cons, List.map_nil]
  norm_num

lemma evalCodePitchBox : generateGrid ⟨19/4, 5/2, 263/4, 127/2⟩ 2 = .ok [] := by
  simp only [generateGrid]
  rw [if_neg (by norm_num), if_neg (by norm_num [rootRect]), evalCellSizeTwo]
  rw [evalLatSamplesCode, evalLonSamplesCode]
  rw [show ([0] : List ℚ).flatMap (fun lat => List.filterMap (fun lon =>
      if rootRect.minLat ≤ lat ∧ lat ≤ rootRect.maxLat ∧
         rootRect.minLon ≤ lon ∧ lon ≤ rootRect.maxLon then
        (encode lat lon 2).toOption
      else none) [63]) = List.filterMap (fun lon =>
      if rootRect.minLat ≤ (0:ℚ) ∧ (0:ℚ) ≤ rootRect.maxLat ∧
         rootRect.minLon ≤ lon ∧ lon ≤ rootRect.maxLon then
        (encode 0 lon 2).toOption
      else none) [63] ++ [] from by simp]
  rw [List.filterMap_cons]
  rw [if_neg (by norm_num [rootRect])]
  rfl


lemma evalEncodeLL : encode (9/2 : ℚ) (261/4 : ℚ) 2 = .ok ⟨['L', 'L']⟩ := by
  rw [encode_eq_ok (9/2) (261/4) 2 (by norm_num) (by norm_num) (by norm_num [rootRect])
    (by norm_num [rootRect]) (by norm_num [rootRect]) (by norm_num [rootRect])]
  rw [show (2 : ℤ).toNat = 2 from rfl, evalEncodeGoLL]

lemma evalLatSamplesSpec : gridSamples ((⌊(5/2 : ℚ) / (9/4)⌋ : ℚ) * (9/4)) (19/4) (9/4) =
    [9/4, 9/2] := by
  have h0 : ((⌊(5/2 : ℚ) / (9/4)⌋ : ℚ) * (9/4)) = 9/4 := by norm_num
  rw [h0]
  unfold gridSamples
  rw [if_pos (by norm_num)]
  have h1 : ⌊((19/4 : ℚ) - 9/4) / (9/4)⌋ = 1 := by norm_num
  rw [h1]
  rw [show List.range (Int.toNat 1 + 1) = [0, 1] from rfl]
  simp only [List.map_cons, List.map_nil]
  norm_num

lemma evalLonSamplesSpec : gridSamples ((⌊(127/2 : ℚ) / (9/4)⌋ : ℚ) * (9/4)) (263/4) (9/4) =
    [63, 261/4] := by
  have h0 : ((⌊(127/2 : ℚ) / (9/4)⌋ : ℚ) * (9/4)) = 63 := by norm_num
  rw [h0]
  unfold gridSamples
  rw [if_pos (by norm_num)]
  have h1 : ⌊((263/4 : ℚ) - 63) / (9/4)⌋ = 1 := by norm_num
  rw [h1]
  rw [show List.range (Int.toNat 1 + 1) = [0, 1] from rfl]
  simp only [List.map_cons, List.map_nil]
  norm_num

lemma evalSpecPitchBox : generateGridSpecPitch ⟨19/4, 5/2, 263/4, 127/2⟩ 2 = .ok ["LL"] := by
  simp only [generateGridSpecPitch]
  rw [if_neg (by norm_num), if_neg (by norm_num [rootRect])]
  rw [show ((36 : ℚ) / 4 ^ (2 : ℤ).toNat) = 9/4 from by
    rw [show (2 : ℤ).toNat = 2 from rfl]; norm_num]
  rw [evalLatSamplesSpec, evalLonSamplesSpec]
  simp only [List.flatMap_cons, List.flatMap_nil, List.filterMap_cons,
    List.filterMap_nil, List.append_nil]
  rw [if_neg (by norm_num [rootRect]), if_neg (by norm_num [rootRect]),
    if_neg (by norm_num [rootRect]),
    if_pos (by refine ⟨?_, ?_, ?_, ?_⟩ <;> norm_num [rootRect])]
  rw [evalEncodeLL]
  simp [insertUnique, Except.toOption]


/-- Counterexample for C3: at precision 2 the lattice pitch computed by
`generateGrid` is 9 degrees (`36 / 4 ^ 1`), not the claimed cell size
`36 / 4 ^ 2 = 2.25`; consequently the box `[2.5, 4.75] × [63.5, 65.75]`
(which wholly contains the precision-2 cell `"LL"`) yields an empty grid,
while the same algorithm run at the claimed pitch yields `["LL"]`. -/
theorem generateGrid_pitch_counterexample :
    gridCellSize 2 ≠ 36 / 4 ^ (2 : ℕ) ∧
    generateGrid ⟨19/4, 5/2, 263/4, 127/2⟩ 2 = .ok [] ∧
    generateGridSpecPitch ⟨19/4, 5/2, 263/4, 127/2⟩ 2 = .ok ["LL"] :=
  ⟨by rw [gridCellSize_closed_form]; norm_num, evalCodePitchBox, evalSpecPitchBox⟩

/-- Witness for the amended C3 at the concrete box
`[2.5, 4.75] × [63.5, 65.75]`, precision 2. -/
theorem generateGrid_lattice_pitch_witness :
    gridCellSize 2 = 36 / 4 ^ ((2 : ℤ) - 1).toNat ∧
    ∀ pin ∈ ([] : List String), ∃ lat lon : ℚ,
      lat ∈ gridSamples
        (⌊(⟨19/4, 5/2, 263/4, 127/2⟩ : GeoBox).south / gridCellSize 2⌋ * gridCellSize 2)
        (⟨19/4, 5/2, 263/4, 127/2⟩ : GeoBox).north (gridCellSize 2) ∧
      lon ∈ gridSamples
        (⌊(⟨19/4, 5/2, 263/4, 127/2⟩ : GeoBox).west / gridCellSize 2⌋ * gridCellSize 2)
        (⟨19/4, 5/2, 263/4, 127/2⟩ : GeoBox).east (gridCellSize 2) ∧
      rootRect.minLat ≤ lat ∧ lat ≤ rootRect.maxLat ∧
      rootRect.minLon ≤ lon ∧ lon ≤ rootRect.maxLon ∧
      encode lat lon 2 = .ok pin :=
  generateGrid_lattice_pitch ⟨19/4, 5/2, 263/4, 127/2⟩ 2 [] evalCodePitchBox

/-! ### Encode preconditions (C5) -/

/-- Counterexample for C5: a `NaN` latitude is not a finite number, yet
`encode` does not raise the typed coordinates error — `typeof NaN ===
'number'` passes the guard, every comparison against `NaN` is false, and
the failure surfaces only inside the loop as an untyped `TypeError` from
the `DIGIPIN_GRID[NaN]` lookup.  Worse, a finite in-range latitude with
a `NaN` longitude does not raise at all: `DIGIPIN_GRID[row][NaN]` is
`undefined`, `+=` appends the string `"undefined"`, and `encode` returns
a garbage code. -/
theorem encode_preconditions_counterexample :
    encodeJS (.jsNum .nan) (.jsNum (.finite 77)) 10 = .error .typeError ∧
    encodeJS (.jsNum (.finite 3)) (.jsNum .nan) 2 = .ok "undefinedundefined" ∧
    EncodeError.typeError ≠ EncodeError.coordinatesError ∧
    EncodeError.typeError ≠ EncodeError.boundsError ∧
    EncodeError.typeError ≠ EncodeError.precisionError := by
  refine ⟨?_, ?_, by decide, by decide, by decide⟩
  · simp only [encodeJS, JSNum.ltQ, JSNum.gtQ]
    rw [if_neg (by norm_num), if_neg (by simp)]
    rw [if_neg (by simp only [decide_eq_true_eq]; push_neg; constructor <;>
      norm_num [rootRect])]
  · simp only [encodeJS, JSNum.ltQ, JSNum.gtQ]
    rw [if_neg (by norm_num),
      if_neg (by simp only [decide_eq_true_eq]; push_neg; constructor <;>
        norm_num [rootRect]),
      if_neg (by simp)]
    rfl

/-- C5 (amended): non-number inputs raise the coordinates error; a
precision outside `[1, 10]` raises the precision error (checked before
the range guards); finite out-of-range coordinates and infinite
coordinates raise the bounds error; a `NaN` latitude that survives the
guards raises an untyped `TypeError` at the grid lookup instead of a
typed error; and a finite in-range latitude with a `NaN` longitude does
not raise at all — the loop appends `"undefined"` once per level and
`encode` returns that garbage code.  In particular `encode(91, 77, 10)`
and `encode(lat, lon, 11)` both raise. -/
theorem encode_preconditions_amended :
    (∀ (y : JSVal) (p : ℤ), encodeJS .nonNum y p = .error .coordinatesError) ∧
    (∀ (x : JSNum) (p : ℤ), encodeJS (.jsNum x) .nonNum p = .error .coordinatesError) ∧
    (∀ (x y : JSNum) (p : ℤ), p < 1 ∨ 10 < p →
      encodeJS (.jsNum x) (.jsNum y) p = .error .precisionError) ∧
    (∀ (la : ℚ) (y : JSNum) (p : ℤ), 1 ≤ p → p ≤ 10 →
      (la < rootRect.minLat ∨ rootRect.maxLat < la) →
      encodeJS (.jsNum (.finite la)) (.jsNum y) p = .error .boundsError) ∧
    (∀ (y : JSNum) (p : ℤ), 1 ≤ p → p ≤ 10 →
      encodeJS (.jsNum .posInf) (.jsNum y) p = .error .boundsError) ∧
    (∀ (y : JSNum) (p : ℤ), 1 ≤ p → p ≤ 10 →
      encodeJS (.jsNum .negInf) (.jsNum y) p = .error .boundsError) ∧
    (∀ (la lo : ℚ) (p : ℤ), 1 ≤ p → p ≤ 10 →
      rootRect.minLat ≤ la → la ≤ rootRect.maxLat →
      (lo < rootRect.minLon ∨ rootRect.maxLon < lo) →
      encodeJS (.jsNum (.finite la)) (.jsNum (.finite lo)) p = .error .boundsError) ∧
    (∀ (la : ℚ) (p : ℤ), 1 ≤ p → p ≤ 10 →
      rootRect.minLat ≤ la → la ≤ rootRect.maxLat →
      encodeJS (.jsNum (.finite la)) (.jsNum .posInf) p = .error .boundsError) ∧
    (∀ (la : ℚ) (p : ℤ), 1 ≤ p → p ≤ 10 →
      rootRect.minLat ≤ la → la ≤ rootRect.maxLat →
      encodeJS (.jsNum (.finite la)) (.jsNum .negInf) p = .error .boundsError) ∧
    (∀ (lo : ℚ) (p : ℤ), 1 ≤ p → p ≤ 10 →
      rootRect.minLon ≤ lo → lo ≤ rootRect.maxLon →
      encodeJS (.jsNum .nan) (.jsNum (.finite lo)) p = .error .typeError) ∧
    (∀ (la : ℚ) (p : ℤ), 1 ≤ p → p ≤ 10 →
      rootRect.minLat ≤ la → la ≤ rootRect.maxLat →
      encodeJS (.jsNum (.finite la)) (.jsNum .nan) p =
        .ok ⟨encodeGoNaNLon p.toNat 1 p.toNat⟩) ∧
    (∀ p : ℤ, 1 ≤ p → p ≤ 10 →
      encodeJS (.jsNum .nan) (.jsNum .nan) p = .error .typeError) ∧
    encodeJS (.jsNum (.finite 91)) (.jsNum (.finite 77)) 10 = .error .boundsError ∧
    (∀ la lo : JSNum, encodeJS (.jsNum la) (.jsNum lo) 11 = .error .precisionError) := by
  refine ⟨fun y p => rfl, fun x p => rfl, ?_, ?_, ?_, ?_, ?_, ?_, ?_, ?_, ?_, ?_, ?_,
    ?_⟩
  · intro x y p hp
    simp only [encodeJS]
    rw [if_pos hp]
  · intro la y p hp1 hp2 hla
    simp only [encodeJS, JSNum.ltQ, JSNum.gtQ]
    rw [if_neg (by omega), if_pos ?_]
    rcases hla with h | h
    · exact Or.inl (by simpa using h)
    · exact Or.inr (by simpa using h)
  · intro y p hp1 hp2
    simp only [encodeJS, JSNum.ltQ, JSNum.gtQ]
    rw [if_neg (by omega), if_pos (Or.inr trivial)]
  · intro y p hp1 hp2
    simp only [encodeJS, JSNum.ltQ, JSNum.gtQ]
    rw [if_neg (by omega), if_pos (Or.inl trivial)]
  · intro la lo p hp1 hp2 h1 h2 hlo
    simp only [encodeJS, JSNum.ltQ, JSNum.gtQ]
    rw [if_neg (by omega),
      if_neg (by simp only [decide_eq_true_eq]; push_neg; exact ⟨h1, h2⟩),
      if_pos ?_]
    rcases hlo with h | h
    · exact Or.inl (by simpa using h)
    · exact Or.inr (by simpa using h)
  · intro la p hp1 hp2 h1 h2
    simp only [encodeJS, JSNum.ltQ, JSNum.gtQ]
    rw [if_neg (by omega),
      if_neg (by simp only [decide_eq_true_eq]; push_neg; exact ⟨h1, h2⟩),
      if_pos (Or.inr trivial)]
  · intro la p hp1 hp2 h1 h2
    simp only [encodeJS, JSNum.ltQ, JSNum.gtQ]
    rw [if_neg (by omega),
      if_neg (by simp only [decide_eq_true_eq]; push_neg; exact ⟨h1, h2⟩),
      if_pos (Or.inl trivial)]
  · intro lo p hp1 hp2 h3 h4
    simp only [encodeJS, JSNum.ltQ, JSNum.gtQ]
    rw [if_neg (by omega), if_neg (by simp),
      if_neg (by simp only [decide_eq_true_eq]; push_neg; exact ⟨h3, h4⟩)]
  · intro la p hp1 hp2 h1 h2
    simp only [encodeJS, JSNum.ltQ, JSNum.gtQ]
    rw [if_neg (by omega),
      if_neg (by simp only [decide_eq_true_eq]; push_neg; exact ⟨h1, h2⟩),
      if_neg (by simp)]
  · intro p hp1 hp2
    simp only [encodeJS, JSNum.ltQ, JSNum.gtQ]
    rw [if_neg (by omega), if_neg (by simp), if_neg (by simp)]
  · simp only [encodeJS, JSNum.ltQ, JSNum.gtQ]
    rw [if_neg (by norm_num),
      if_pos (Or.inr (by simp only [decide_eq_true_eq]; norm_num [rootRect]))]
  · intro la lo
    simp only [encodeJS]
    rw [if_pos (by norm_num)]

/-- Witness for the amended C5: the two concrete raises from the claim,
the `NaN`-latitude `TypeError`, and the `NaN`-longitude garbage return. -/
theorem encode_preconditions_amended_witness :
    encodeJS (.jsNum (.finite 91)) (.jsNum (.finite 77)) 10 = .error .boundsError ∧
    encodeJS (.jsNum (.finite 3)) (.jsNum (.finite 64)) 11 = .error .precisionError ∧
    encodeJS (.jsNum .nan) (.jsNum (.finite 77)) 10 = .error .typeError ∧
    encodeJS (.jsNum (.finite 3)) (.jsNum .nan) 2 = .ok "undefinedundefined" := by
  obtain ⟨-, -, -, -, -, -, -, -, -, hnanlat, hnanlon, -, h91, h11⟩ :=
    encode_preconditions_amended
  refine ⟨h91, h11 (.finite 3) (.finite 64), ?_, ?_⟩
  · exact hnanlat 77 10 (by norm_num) (by norm_num) (by norm_num [rootRect])
      (by norm_num [rootRect])
  · exact (hnanlon 3 2 (by norm_num) (by norm_num) (by norm_num [rootRect])
      (by norm_num [rootRect])).trans (by rfl)

end Digipin
